import Mathlib

/-!
# FDISK: MBR / EBR partition table lister

Shallow embedding of `src/fdisk.c` and theorems about it.

Modelling conventions

* A byte is a `Fin 256`.  The two packed structs (`PartitionEntry`, `MBR`) are
  overlaid on raw bytes by the program; the embedding decodes them field by
  field at the offsets fixed by `#pragma pack(push, 1)`, multi-byte fields
  little-endian (the byte order of the hosts the program is built for).
* `uint32_t` arithmetic is done in `Nat` with an explicit `% 2^32`; `off_t` is
  taken to be 64 bits wide, so a 32-bit offset is passed to `lseek` unchanged.
* `float` and `%.1f` are computed exactly on integers (24-bit significand,
  round to nearest, ties to even).
* A C string is the list of its characters (one `Char` per byte, no NUL).
* The file descriptor is a `ByteSource`: `lseek off` says whether seeking to
  the absolute byte offset `off` succeeds, and `read off n` is the list of
  bytes that a `read` of `n` bytes at offset `off` delivers (a result whose
  length is not `n` is a short or failed read).
* `partition_index` is a C `int`; the embedding counts in `Nat` (the two agree
  as long as the counter stays below `2^31`).
* The `while (next_ebr)` loop has no bound in the source; the embedding
  iterates it a given number of times (`walk_steps`) and `parse_extended_partition`
  returns `none` when the cursor is still non-zero after `fuel` iterations.
-/

namespace FDisk

/-! ## Data model -/

abbrev Byte := Fin 256

/-- The 16-byte partition table entry (`PartitionEntry`, packed). -/
structure PartitionEntry where
  boot_indicator : Nat
  start_head : Nat
  start_sector : Nat
  start_cylinder : Nat
  partition_type : Nat
  end_head : Nat
  end_sector : Nat
  end_cylinder : Nat
  start_sector_abs : Nat
  total_sectors : Nat
deriving DecidableEq

/-- The byte at index `i` of a buffer, as a number (0 past the end). -/
def byteAt (buf : List Byte) (i : Nat) : Nat := (buf.getD i 0).val

/-- The little-endian `uint32_t` stored in bytes `i .. i+3` of a buffer. -/
def le32At (buf : List Byte) (i : Nat) : Nat :=
  byteAt buf i + 2 ^ 8 * byteAt buf (i + 1) + 2 ^ 16 * byteAt buf (i + 2)
    + 2 ^ 24 * byteAt buf (i + 3)

/-- The little-endian `uint16_t` stored in bytes `i .. i+1` of a buffer. -/
def le16At (buf : List Byte) (i : Nat) : Nat :=
  byteAt buf i + 2 ^ 8 * byteAt buf (i + 1)

/-- The `PartitionEntry` overlaid on the 16 bytes of `buf` that start at `off`. -/
def entryAt (buf : List Byte) (off : Nat) : PartitionEntry where
  boot_indicator := byteAt buf off
  start_head := byteAt buf (off + 1)
  start_sector := byteAt buf (off + 2)
  start_cylinder := byteAt buf (off + 3)
  partition_type := byteAt buf (off + 4)
  end_head := byteAt buf (off + 5)
  end_sector := byteAt buf (off + 6)
  end_cylinder := byteAt buf (off + 7)
  start_sector_abs := le32At buf (off + 8)
  total_sectors := le32At buf (off + 12)

/-- The 512-byte first sector (`MBR`, packed). -/
structure MBR where
  boot_code : List Byte
  partitions : List PartitionEntry
  signature : Nat

/-- The `MBR` overlaid on a 512-byte buffer: 446 bytes of boot code, four
entries at offsets 446, 462, 478, 494, and the signature at offset 510. -/
def mbrOf (buf : List Byte) : MBR where
  boot_code := buf.take 446
  partitions := [entryAt buf 446, entryAt buf 462, entryAt buf 478, entryAt buf 494]
  signature := le16At buf 510

/-! ## Partition type descriptions -/

def get_partition_type (type : Nat) : String :=
  match type with
  | 0x0B => "W95 FAT32"
  | 0x0C => "W95 FAT32 (LBA)"
  | 0x83 => "Linux"
  | 0x05 => "Extended"
  | 0x07 => "HPFS/NTFS/exFAT"
  | 0x82 => "Linux swap / Solaris"
  | 0xEF => "EFI System"
  | 0xA0 => "BIOS boot"
  | _ => "Unknown"

/-! ## Size string: `float` arithmetic and `%.1f`, done exactly -/

/-- Number of low bits that do not fit a 24-bit significand: how often `n` is
halved before it is below `2^24` (at most `fuel` times). -/
def excessBits : Nat → Nat → Nat
  | 0, _ => 0
  | fuel + 1, n => if n < 2 ^ 24 then 0 else 1 + excessBits fuel (n / 2)

/-- Round a natural number below `2^32` to the nearest number with a 24-bit
significand, ties to even: the conversion of the `double` value
`total_sectors * 512.0 / (1024 * 1024)` to `float`, scaled by `2^11`. -/
def roundFloat (n : Nat) : Nat :=
  let e := excessBits 8 n
  let q := n / 2 ^ e
  let r := n % 2 ^ e
  if 2 * r > 2 ^ e ∨ (2 * r = 2 ^ e ∧ q % 2 = 1) then (q + 1) * 2 ^ e else q * 2 ^ e

/-- Tenths of `num / 2^k`, rounded to nearest, ties to even (what `%.1f`
prints for a binary value). -/
def tenths (num k : Nat) : Nat :=
  let q := (10 * num) / 2 ^ k
  let r := (10 * num) % 2 ^ k
  if 2 * r > 2 ^ k ∨ (2 * r = 2 ^ k ∧ q % 2 = 1) then q + 1 else q

/-- The text `%.1f` prints for `num / 2^k`. -/
def fmt1 (num k : Nat) : String :=
  let t := tenths num k
  toString (t / 10) ++ "." ++ toString (t % 10)

/-- The `size_str` of `print_partition_info`: `size_mb` is the `float`
nearest to `total_sectors / 2048`, `size_gb = size_mb / 1024`. -/
def size_str (total_sectors : Nat) : String :=
  let m := roundFloat total_sectors
  if m ≥ 2 ^ 21 then fmt1 m 21 ++ "G" else fmt1 m 11 ++ "M"

/-! ## One output line -/

/-- The arguments `print_partition_info` hands to `printf`, with the boot
marker kept as the flag it is derived from. -/
structure Line where
  dev_name : List Char
  is_bootable : Bool
  start : Nat
  end_sector : Nat
  sectors : Nat
  size : String
  type : String
deriving DecidableEq

/-- The `uint32_t` end sector `start_sector_abs + total_sectors - 1`. -/
def end_sector_of (p : PartitionEntry) : Nat :=
  (p.start_sector_abs + p.total_sectors + (2 ^ 32 - 1)) % 2 ^ 32

/-- What `print_partition_info` prints: one line when the type is non-zero,
nothing otherwise. -/
def print_partition_info (dev_name : List Char) (partition : PartitionEntry)
    (is_bootable : Bool) : Option Line :=
  if partition.partition_type ≠ 0x00 then
    some { dev_name := dev_name
           is_bootable := is_bootable
           start := partition.start_sector_abs
           end_sector := end_sector_of partition
           sectors := partition.total_sectors
           size := size_str partition.total_sectors
           type := get_partition_type partition.partition_type }
  else none

/-- The text `snprintf(dev_name, 16, "%s%d", base, index)` leaves in the
16-byte buffer: at most 15 characters of the concatenation. -/
def slot_name (base : List Char) (index : Nat) : List Char :=
  (base ++ Nat.toDigits 10 index).take 15

/-! ## Run state -/

/-- A printed line together with where it came from: the value of
`partition_index` formatted into its name and the entry it describes. -/
structure Reported where
  slot : Nat
  entry : PartitionEntry
  line : Line
deriving DecidableEq

/-- The byte source behind the file descriptor. -/
structure ByteSource where
  lseek : Nat → Bool
  read : Nat → Nat → List Byte

/-- The observable state of a run. -/
structure Run where
  /-- the header line has been printed -/
  header : Bool
  /-- the partition lines printed so far, in order -/
  out : List Reported
  /-- the byte offsets passed to `lseek`, in order -/
  seeks : List Nat
  /-- the byte offsets at which a 32-byte EBR read was issued, in order -/
  reads : List Nat
  /-- the diagnostics written to the error stream, in order -/
  errs : List String
  /-- the counter `partition_index` -/
  partition_index : Nat
deriving DecidableEq

/-- Call `print_partition_info` and append what it prints. -/
def report (st : Run) (slot : Nat) (dev_name : List Char) (p : PartitionEntry)
    (is_bootable : Bool) : Run :=
  match print_partition_info dev_name p is_bootable with
  | some l => { st with out := st.out ++ [{ slot := slot, entry := p, line := l }] }
  | none => st

/-! ## Extended chain walker -/

/-- One pass of the `for (i < 2)` body of `parse_extended_partition`. -/
def ebr_entry (base_name : List Char) (p : PartitionEntry) (st : Run) : Run :=
  if p.partition_type ≠ 0x00 then
    report { st with partition_index := st.partition_index + 1 } st.partition_index
      (slot_name base_name st.partition_index) p false
  else st

/-- The next cursor chosen from entry 1 of an EBR. -/
def next_ebr_of (e1 : PartitionEntry) : Nat :=
  if e1.partition_type = 0x05 ∨ e1.partition_type = 0x0F then e1.start_sector_abs else 0

/-- One iteration of the `while (next_ebr)` loop, entered with a non-zero
cursor.  The seek offset `next_ebr * 512` is a `uint32_t` product, hence taken
modulo `2^32`.  Returns the next cursor (0 when the function returns or the
loop ends) and the new state. -/
def ebr_iteration (src : ByteSource) (base_name : List Char) (next_ebr : Nat)
    (st : Run) : Nat × Run :=
  let off := (next_ebr * 512) % 2 ^ 32
  let st1 := { st with seeks := st.seeks ++ [off] }
  if src.lseek off = false then
    (0, { st1 with errs := st1.errs ++ ["lseek"] })
  else
    let buf := src.read off 32
    let st2 := { st1 with reads := st1.reads ++ [off] }
    if buf.length ≠ 32 then
      (0, { st2 with errs := st2.errs ++ ["read"] })
    else
      let e0 := entryAt buf 0
      let e1 := entryAt buf 16
      (next_ebr_of e1, ebr_entry base_name e1 (ebr_entry base_name e0 st2))

/-- The state of the walk after at most `n` iterations of the loop. -/
def walk_steps (src : ByteSource) (base_name : List Char) :
    Nat → Nat × Run → Nat × Run
  | 0, s => s
  | n + 1, (next_ebr, st) =>
    if next_ebr = 0 then (next_ebr, st)
    else walk_steps src base_name n (ebr_iteration src base_name next_ebr st)

/-- The walker `parse_extended_partition`: the state it returns with, or
`none` when the loop is still running after `fuel` iterations. -/
def parse_extended_partition (fuel : Nat) (src : ByteSource) (ebr_start : Nat)
    (base_name : List Char) (st : Run) : Option Run :=
  let r := walk_steps src base_name fuel (ebr_start, st)
  if r.1 = 0 then some r.2 else none

/-! ## `main` -/

inductive ExitStatus where
  | EXIT_SUCCESS
  | EXIT_FAILURE
deriving DecidableEq

/-- The first loop of `main` over the primary slots. -/
def primary_pass (device : List Char) : List PartitionEntry → Run → Run
  | [], st => st
  | p :: ps, st =>
    if p.partition_type ≠ 0x00 then
      primary_pass device ps
        { report st st.partition_index (slot_name device st.partition_index) p
            (decide (p.boot_indicator = 0x80))
          with partition_index := st.partition_index + 1 }
    else primary_pass device ps st

/-- The second loop of `main`: one walk per extended-type primary slot. -/
def extended_pass (fuel : Nat) (src : ByteSource) (device : List Char) :
    List PartitionEntry → Run → Option Run
  | [], st => some st
  | p :: ps, st =>
    if p.partition_type = 0x05 ∨ p.partition_type = 0x0F then
      match parse_extended_partition fuel src p.start_sector_abs device st with
      | some st1 => extended_pass fuel src device ps st1
      | none => none
    else extended_pass fuel src device ps st

/-- The state before anything is printed. -/
def Run.init : Run :=
  { header := false, out := [], seeks := [], reads := [], errs := [], partition_index := 1 }

/-- The body of `main` from the first `read` on, for an opened device. -/
def main (fuel : Nat) (device : List Char) (src : ByteSource) : Option (ExitStatus × Run) :=
  let buf := src.read 0 512
  if buf.length ≠ 512 then
    some (ExitStatus.EXIT_FAILURE, { Run.init with errs := ["read"] })
  else
    let mbr := mbrOf buf
    if mbr.signature ≠ 0xAA55 then
      some (ExitStatus.EXIT_FAILURE, { Run.init with errs := ["Invalid MBR signature"] })
    else
      let st := primary_pass device mbr.partitions { Run.init with header := true }
      match extended_pass fuel src device mbr.partitions st with
      | some st1 => some (ExitStatus.EXIT_SUCCESS, st1)
      | none => none

/-! ## Specification-side helpers -/

/-- The line printed for a non-empty entry under a given name and boot flag. -/
def line_of (dev_name : List Char) (p : PartitionEntry) (is_bootable : Bool) : Line :=
  { dev_name := dev_name
    is_bootable := is_bootable
    start := p.start_sector_abs
    end_sector := end_sector_of p
    sectors := p.total_sectors
    size := size_str p.total_sectors
    type := get_partition_type p.partition_type }

/-- The record the primary loop appends for entry `p` when the counter is `k`. -/
def primary_record (device : List Char) (k : Nat) (p : PartitionEntry) : Reported :=
  { slot := k, entry := p
    line := line_of (slot_name device k) p (decide (p.boot_indicator = 0x80)) }

/-- The record the walker appends for entry `p` when the counter is `k`. -/
def walker_record (base_name : List Char) (k : Nat) (p : PartitionEntry) : Reported :=
  { slot := k, entry := p, line := line_of (slot_name base_name k) p false }

/-- One record per entry of a list, numbered upwards from `k`. -/
def numbered (mk : Nat → PartitionEntry → Reported) : Nat → List PartitionEntry → List Reported
  | _, [] => []
  | k, p :: ps => mk k p :: numbered mk (k + 1) ps

/-- The primary entries of a first sector whose type is non-zero, in slot order. -/
def nonempty_primaries (buf : List Byte) : List PartitionEntry :=
  (mbrOf buf).partitions.filter (fun p => decide (p.partition_type ≠ 0x00))

/-- The primary entries of a first sector whose type is 0x05 or 0x0F, in slot order. -/
def extended_primaries (buf : List Byte) : List PartitionEntry :=
  (mbrOf buf).partitions.filter
    (fun p => decide (p.partition_type = 0x05 ∨ p.partition_type = 0x0F))

/-- The entries of a 32-byte EBR read whose type is non-zero, entry 0 first. -/
def ebr_nonempty (buf : List Byte) : List PartitionEntry :=
  [entryAt buf 0, entryAt buf 16].filter (fun p => decide (p.partition_type ≠ 0x00))

/-! ## Concrete sectors and images -/

/-- The byte holding the low eight bits of a number. -/
def byteOf (x : Nat) : Byte := ⟨x % 256, Nat.mod_lt _ (by decide)⟩

/-- The four bytes of a `uint32_t`, least significant first. -/
def le32Bytes (x : Nat) : List Byte :=
  [byteOf x, byteOf (x / 2 ^ 8), byteOf (x / 2 ^ 16), byteOf (x / 2 ^ 24)]

/-- The 16 bytes of an entry with the given boot indicator, type, start and
sector count (CHS bytes zero). -/
def entryBytes (boot type start total : Nat) : List Byte :=
  [byteOf boot, 0, 0, 0, byteOf type, 0, 0, 0] ++ le32Bytes start ++ le32Bytes total

/-- The 16 bytes of an unused entry. -/
def emptyEntry : List Byte := entryBytes 0 0 0 0

/-- A first sector with zeroed boot code, four given entries and the given
two signature bytes. -/
def sectorWith (e0 e1 e2 e3 : List Byte) (s0 s1 : Byte) : List Byte :=
  List.replicate 446 0 ++ e0 ++ e1 ++ e2 ++ e3 ++ [s0, s1]

/-- A first sector with a valid signature. -/
def mbrSector (e0 e1 e2 e3 : List Byte) : List Byte := sectorWith e0 e1 e2 e3 0x55 0xAA

/-- A disk image given by its first sector and the 32-byte EBR tables found
at some byte offsets; every seek succeeds, reads elsewhere deliver nothing. -/
def imageSource (mbr : List Byte) (ebrs : List (Nat × List Byte)) : ByteSource where
  lseek := fun _ => true
  read := fun off n =>
    if off = 0 then mbr.take n
    else match ebrs.lookup off with
      | some b => b.take n
      | none => []

/-- The state `main` is in after its first loop, for a first sector `buf`. -/
def primary_state (device : List Char) (buf : List Byte) : Run :=
  primary_pass device (mbrOf buf).partitions { Run.init with header := true }

/-- An image whose first sector has no partition and a wrong second
signature byte. -/
def badSignatureImage : ByteSource :=
  imageSource (sectorWith emptyEntry emptyEntry emptyEntry emptyEntry 0x55 0xAB) []

/-- A device name of 17 characters. -/
def longDevice : List Char := "/dev/disk/by-id/x".toList

/-- An image with one bootable Linux partition in slot 0 and one Linux
partition in slot 2. -/
def twoPrimariesImage : ByteSource :=
  imageSource
    (mbrSector (entryBytes 0x80 0x83 2048 204800) emptyEntry
      (entryBytes 0x00 0x83 206848 2048) emptyEntry) []

/-- An image with an extended partition in slot 0 at sector 4096 whose only
EBR holds one Linux partition (start 4098, 2048 sectors) and no link. -/
def oneLogicalImage : ByteSource :=
  imageSource
    (mbrSector (entryBytes 0x00 0x05 4096 8192) emptyEntry emptyEntry emptyEntry)
    [(4096 * 512, entryBytes 0x00 0x83 4098 2048 ++ emptyEntry)]

/-- An image with a Linux partition in slots 0 and 2 and an extended
partition in slot 1 at sector 4096; the EBR at 4096 holds a bootable-flagged
Linux partition and a link of type 0x05 to sector 8192, whose EBR holds a
Linux partition and no link. -/
def twoLogicalsImage : ByteSource :=
  imageSource
    (mbrSector (entryBytes 0x80 0x83 2048 2048) (entryBytes 0x00 0x05 4096 8192)
      (entryBytes 0x00 0x83 20480 2048) emptyEntry)
    [(4096 * 512, entryBytes 0x80 0x83 4098 2048 ++ entryBytes 0x00 0x05 8192 4096),
     (8192 * 512, entryBytes 0x00 0x83 8194 2048 ++ emptyEntry)]

/-- An image whose slot 0 holds a Linux partition that starts at the last
32-bit sector number and is two sectors long. -/
def wrappingImage : ByteSource :=
  imageSource
    (mbrSector (entryBytes 0x00 0x83 4294967295 2) emptyEntry emptyEntry emptyEntry) []

/-- The 16 bytes that hold the ten fields of an entry, in declaration order,
the two 32-bit fields least significant byte first. -/
def encodeEntry (p : PartitionEntry) : List Byte :=
  [byteOf p.boot_indicator, byteOf p.start_head, byteOf p.start_sector,
    byteOf p.start_cylinder, byteOf p.partition_type, byteOf p.end_head,
    byteOf p.end_sector, byteOf p.end_cylinder]
    ++ le32Bytes p.start_sector_abs ++ le32Bytes p.total_sectors

/-- The numbering invariant of a state: the records printed so far carry the
slots 1, 2, ..., n in output order and the counter is n + 1. -/
def Run.consecutive (st : Run) : Prop :=
  st.out.map (fun e => e.slot) = List.range' 1 st.out.length
    ∧ st.partition_index = st.out.length + 1

/-- An image whose slot 0 is an extended partition starting at sector
8388608 (byte offset 2^32). -/
def overflowImage : ByteSource :=
  imageSource
    (mbrSector (entryBytes 0x00 0x05 8388608 2048) emptyEntry emptyEntry emptyEntry) []

/-- A source with a Linux partition in slot 3 and extended entries in slots
0, 1 and 2: seeking to sector 100 (slot 0) fails, nothing can be read at
sector 200 (slot 1), and the EBR at sector 4096 (slot 2) holds one Linux
partition and no link. -/
def failingSource : ByteSource where
  lseek := fun off => decide (off ≠ 100 * 512)
  read := (imageSource
    (mbrSector (entryBytes 0x00 0x05 100 50) (entryBytes 0x00 0x0F 200 50)
      (entryBytes 0x00 0x05 4096 8192) (entryBytes 0x80 0x83 20480 2048))
    [(4096 * 512, entryBytes 0x00 0x83 4098 2048 ++ emptyEntry)]).read

/-- An image whose slot 0 is an extended partition at sector 4096 and whose
EBR there holds a Linux partition and a link of type 0x05 back to sector
4096. -/
def cyclicImage : ByteSource :=
  imageSource
    (mbrSector (entryBytes 0x00 0x05 4096 8192) emptyEntry emptyEntry emptyEntry)
    [(4096 * 512, entryBytes 0x00 0x83 4098 2048 ++ entryBytes 0x00 0x05 4096 8192)]

/-- An image whose only partition is a bootable Linux partition in slot 0,
start 2048, 204800 sectors. -/
def singleLinuxImage : ByteSource :=
  imageSource
    (mbrSector (entryBytes 0x80 0x83 2048 204800) emptyEntry emptyEntry emptyEntry) []

/-- A source that delivers only 100 bytes of its first sector. -/
def shortSource : ByteSource where
  lseek := fun _ => true
  read := fun _ n => (List.replicate 100 (0 : Byte)).take n

/-- An image whose slot 0 holds an entry of type 0x83 with start 0 and
0 sectors. -/
def zeroLengthImage : ByteSource :=
  imageSource (mbrSector (entryBytes 0x00 0x83 0 0) emptyEntry emptyEntry emptyEntry) []

/-- An image with zeroed boot code whose slot 0 is an extended partition at
sector 8388608 (byte offset 2^32) and whose EBR there holds a Linux partition
and a link of type 0x05 back to sector 8388608. -/
def farCycleImage : ByteSource :=
  imageSource
    (mbrSector (entryBytes 0x00 0x05 8388608 8192) emptyEntry emptyEntry emptyEntry)
    [(8388608 * 512,
      entryBytes 0x00 0x83 8388610 2048 ++ entryBytes 0x00 0x05 8388608 8192)]

/-! ## Basic lemmas -/

theorem byteAt_lt (buf : List Byte) (i : Nat) : byteAt buf i < 256 := by
  unfold byteAt
  exact (buf.getD i 0).isLt

theorem le16At_eq_iff (buf : List Byte) (i : Nat) :
    le16At buf i = 0xAA55 ↔ byteAt buf i = 0x55 ∧ byteAt buf (i + 1) = 0xAA := by
  have h0 := byteAt_lt buf i
  have h1 := byteAt_lt buf (i + 1)
  unfold le16At
  omega

theorem print_partition_info_of_ne (n : List Char) (p : PartitionEntry) (b : Bool)
    (h : p.partition_type ≠ 0) : print_partition_info n p b = some (line_of n p b) := by
  simp [print_partition_info, line_of, h]

theorem print_partition_info_of_eq (n : List Char) (p : PartitionEntry) (b : Bool)
    (h : p.partition_type = 0) : print_partition_info n p b = none := by
  simp [print_partition_info, h]

theorem report_of_ne (st : Run) (k : Nat) (n : List Char) (p : PartitionEntry) (b : Bool)
    (h : p.partition_type ≠ 0) :
    report st k n p b =
      { st with out := st.out ++ [{ slot := k, entry := p, line := line_of n p b }] } := by
  simp [report, print_partition_info_of_ne n p b h]

theorem numbered_append (mk : Nat → PartitionEntry → Reported) :
    ∀ (xs ys : List PartitionEntry) (k : Nat),
      numbered mk k (xs ++ ys) = numbered mk k xs ++ numbered mk (k + xs.length) ys
  | [], ys, k => by simp [numbered]
  | x :: xs, ys, k => by
    have e : k + 1 + xs.length = k + (xs.length + 1) := by omega
    have ih := numbered_append mk xs ys (k + 1)
    rw [e] at ih
    show mk k x :: numbered mk (k + 1) (xs ++ ys) = _
    rw [ih]
    rfl

theorem length_numbered (mk : Nat → PartitionEntry → Reported) :
    ∀ (xs : List PartitionEntry) (k : Nat), (numbered mk k xs).length = xs.length
  | [], _ => rfl
  | _ :: xs, k => by simp [numbered, length_numbered mk xs (k + 1)]

theorem numbered_getElem? (mk : Nat → PartitionEntry → Reported) :
    ∀ (xs : List PartitionEntry) (k i : Nat),
      (numbered mk k xs)[i]? = (xs[i]?).map (mk (k + i))
  | [], _, _ => by simp [numbered]
  | x :: xs, k, 0 => by simp [numbered]
  | x :: xs, k, i + 1 => by
    have e : k + 1 + i = k + (i + 1) := by omega
    simp only [numbered, List.getElem?_cons_succ, numbered_getElem? mk xs (k + 1) i, e]

theorem mem_numbered (mk : Nat → PartitionEntry → Reported) :
    ∀ (xs : List PartitionEntry) (k : Nat) (r : Reported), r ∈ numbered mk k xs →
      ∃ i p, p ∈ xs ∧ i < xs.length ∧ r = mk (k + i) p
  | [], _, r, h => by simp [numbered] at h
  | x :: xs, k, r, h => by
    simp only [numbered, List.mem_cons] at h
    rcases h with h | h
    · exact ⟨0, x, by simp, by simp, by simpa using h⟩
    · obtain ⟨i, p, hp, hi, hr⟩ := mem_numbered mk xs (k + 1) r h
      refine ⟨i + 1, p, by simp [hp], by simpa using hi, ?_⟩
      rw [hr]
      congr 1
      omega

theorem map_slot_numbered (mk : Nat → PartitionEntry → Reported)
    (hmk : ∀ k p, (mk k p).slot = k) :
    ∀ (xs : List PartitionEntry) (k : Nat),
      (numbered mk k xs).map (fun r => r.slot) = List.range' k xs.length
  | [], _ => rfl
  | x :: xs, k => by
    simp [numbered, hmk, map_slot_numbered mk hmk xs (k + 1), List.range'_succ]

theorem map_entry_numbered (mk : Nat → PartitionEntry → Reported)
    (hmk : ∀ k p, (mk k p).entry = p) :
    ∀ (xs : List PartitionEntry) (k : Nat),
      (numbered mk k xs).map (fun r => r.entry) = xs
  | [], _ => rfl
  | x :: xs, k => by
    simp [numbered, hmk, map_entry_numbered mk hmk xs (k + 1)]

/-! ## The primary loop -/

theorem primary_pass_spec (device : List Char) :
    ∀ (ps : List PartitionEntry) (st : Run),
      (primary_pass device ps st).out =
          st.out ++ numbered (primary_record device) st.partition_index
            (ps.filter (fun p => decide (p.partition_type ≠ 0x00)))
        ∧ (primary_pass device ps st).partition_index =
          st.partition_index + (ps.filter (fun p => decide (p.partition_type ≠ 0x00))).length
        ∧ (primary_pass device ps st).header = st.header
        ∧ (primary_pass device ps st).seeks = st.seeks
        ∧ (primary_pass device ps st).reads = st.reads
        ∧ (primary_pass device ps st).errs = st.errs
  | [], st => by simp [primary_pass, numbered]
  | p :: ps, st => by
    by_cases h : p.partition_type = 0
    · have ih := primary_pass_spec device ps st
      simpa [primary_pass, h] using ih
    · have ih := primary_pass_spec device ps
        { report st st.partition_index (slot_name device st.partition_index) p
            (decide (p.boot_indicator = 0x80))
          with partition_index := st.partition_index + 1 }
      rw [report_of_ne _ _ _ _ _ h] at ih
      simp only [primary_pass, ne_eq, h, not_false_eq_true, if_true, decide_True,
        List.filter_cons_of_pos, numbered, List.length_cons]
      rw [report_of_ne _ _ _ _ _ h]
      obtain ⟨h1, h2, h3, h4, h5, h6⟩ := ih
      refine ⟨?_, ?_, h3, h4, h5, h6⟩
      · rw [h1]
        simp [primary_record]
      · dsimp only [ne_eq] at h2 ⊢
        omega

/-! ## The walker -/

theorem ebr_entry_of_ne (base : List Char) (p : PartitionEntry) (st : Run)
    (h : p.partition_type ≠ 0) :
    ebr_entry base p st =
      { st with out := st.out ++ [walker_record base st.partition_index p]
                partition_index := st.partition_index + 1 } := by
  simp [ebr_entry, h, report_of_ne, walker_record]

theorem ebr_entry_of_eq (base : List Char) (p : PartitionEntry) (st : Run)
    (h : p.partition_type = 0) : ebr_entry base p st = st := by
  simp [ebr_entry, h]

theorem ebr_entry_spec (base : List Char) (p : PartitionEntry) (st : Run) :
    (ebr_entry base p st).out =
        st.out ++ numbered (walker_record base) st.partition_index
          ([p].filter (fun p => decide (p.partition_type ≠ 0x00)))
      ∧ (ebr_entry base p st).partition_index =
        st.partition_index + ([p].filter (fun p => decide (p.partition_type ≠ 0x00))).length
      ∧ (ebr_entry base p st).header = st.header
      ∧ (ebr_entry base p st).seeks = st.seeks
      ∧ (ebr_entry base p st).reads = st.reads
      ∧ (ebr_entry base p st).errs = st.errs := by
  by_cases h : p.partition_type = 0
  · simp [ebr_entry_of_eq base p st h, h, numbered]
  · simp [ebr_entry_of_ne base p st h, h, numbered]

/-- What one loop iteration does when the seek and the 32-byte read succeed. -/
theorem ebr_iteration_ok (src : ByteSource) (base : List Char) (c : Nat) (st : Run)
    (hseek : src.lseek ((c * 512) % 2 ^ 32) = true)
    (hread : (src.read ((c * 512) % 2 ^ 32) 32).length = 32) :
    (ebr_iteration src base c st).1 = next_ebr_of (entryAt (src.read ((c * 512) % 2 ^ 32) 32) 16)
      ∧ (ebr_iteration src base c st).2.out =
        st.out ++ numbered (walker_record base) st.partition_index
          (ebr_nonempty (src.read ((c * 512) % 2 ^ 32) 32))
      ∧ (ebr_iteration src base c st).2.partition_index =
        st.partition_index + (ebr_nonempty (src.read ((c * 512) % 2 ^ 32) 32)).length
      ∧ (ebr_iteration src base c st).2.header = st.header
      ∧ (ebr_iteration src base c st).2.seeks = st.seeks ++ [(c * 512) % 2 ^ 32]
      ∧ (ebr_iteration src base c st).2.reads = st.reads ++ [(c * 512) % 2 ^ 32]
      ∧ (ebr_iteration src base c st).2.errs = st.errs := by
  have h0 := ebr_entry_spec base (entryAt (src.read ((c * 512) % 2 ^ 32) 32) 0)
    { st with seeks := st.seeks ++ [(c * 512) % 2 ^ 32]
              reads := st.reads ++ [(c * 512) % 2 ^ 32] }
  have h1 := ebr_entry_spec base (entryAt (src.read ((c * 512) % 2 ^ 32) 32) 16)
    (ebr_entry base (entryAt (src.read ((c * 512) % 2 ^ 32) 32) 0)
      { st with seeks := st.seeks ++ [(c * 512) % 2 ^ 32]
                reads := st.reads ++ [(c * 512) % 2 ^ 32] })
  obtain ⟨a1, a2, a3, a4, a5, a6⟩ := h0
  obtain ⟨b1, b2, b3, b4, b5, b6⟩ := h1
  have hcat : ebr_nonempty (src.read ((c * 512) % 2 ^ 32) 32) =
      [entryAt (src.read ((c * 512) % 2 ^ 32) 32) 0].filter
          (fun p => decide (p.partition_type ≠ 0x00))
        ++ [entryAt (src.read ((c * 512) % 2 ^ 32) 32) 16].filter
          (fun p => decide (p.partition_type ≠ 0x00)) := by
    unfold ebr_nonempty
    rw [← List.filter_append]
    rfl
  simp only [ebr_iteration, hseek, hread, ne_eq, not_true_eq_false, if_false,
    Bool.true_eq_false]
  refine ⟨trivial, ?_, ?_, ?_, ?_, ?_, ?_⟩
  · rw [b1, a1, hcat, numbered_append, a2, List.append_assoc]
  · rw [b2, a2, hcat, List.length_append, Nat.add_assoc]
  · rw [b3, a3]
  · rw [b4, a4]
  · rw [b5, a5]
  · rw [b6, a6]

/-- What one loop iteration does when the seek or the read fails. -/
theorem ebr_iteration_fail (src : ByteSource) (base : List Char) (c : Nat) (st : Run)
    (h : src.lseek ((c * 512) % 2 ^ 32) = false
      ∨ (src.read ((c * 512) % 2 ^ 32) 32).length ≠ 32) :
    (ebr_iteration src base c st).1 = 0
      ∧ (ebr_iteration src base c st).2.out = st.out
      ∧ (ebr_iteration src base c st).2.partition_index = st.partition_index
      ∧ (ebr_iteration src base c st).2.header = st.header := by
  by_cases hs : src.lseek ((c * 512) % 2 ^ 32) = false
  · simp only [ebr_iteration, hs, if_true, and_self]
  · have hr : (src.read ((c * 512) % 2 ^ 32) 32).length ≠ 32 := by
      rcases h with h | h
      · exact absurd h hs
      · exact h
    have hs1 : src.lseek ((c * 512) % 2 ^ 32) = true := by
      cases hx : src.lseek ((c * 512) % 2 ^ 32)
      · exact absurd hx hs
      · rfl
    simp only [ebr_iteration, hs1, Bool.true_eq_false, if_false, ne_eq, hr,
      not_false_eq_true, if_true, and_self]

/-- Every loop iteration appends the records of some non-empty entries,
numbered from the counter on, and advances the counter by their number. -/
theorem ebr_iteration_spec (src : ByteSource) (base : List Char) (c : Nat) (st : Run) :
    ∃ ps : List PartitionEntry,
      (∀ p ∈ ps, p.partition_type ≠ 0)
      ∧ (ebr_iteration src base c st).2.out =
        st.out ++ numbered (walker_record base) st.partition_index ps
      ∧ (ebr_iteration src base c st).2.partition_index = st.partition_index + ps.length
      ∧ (ebr_iteration src base c st).2.header = st.header := by
  by_cases h : src.lseek ((c * 512) % 2 ^ 32) = false
      ∨ (src.read ((c * 512) % 2 ^ 32) 32).length ≠ 32
  · obtain ⟨_, h2, h3, h4⟩ := ebr_iteration_fail src base c st h
    exact ⟨[], by simp, by simp [h2, numbered], by simp [h3], h4⟩
  · have hs : src.lseek ((c * 512) % 2 ^ 32) = true := by
      cases hx : src.lseek ((c * 512) % 2 ^ 32)
      · exact absurd (Or.inl hx) h
      · rfl
    have hr : (src.read ((c * 512) % 2 ^ 32) 32).length = 32 := by
      by_contra hx
      exact h (Or.inr hx)
    obtain ⟨_, h2, h3, h4, _⟩ := ebr_iteration_ok src base c st hs hr
    refine ⟨ebr_nonempty (src.read ((c * 512) % 2 ^ 32) 32), ?_, h2, h3, h4⟩
    intro p hp
    unfold ebr_nonempty at hp
    simpa using (List.mem_filter.mp hp).2

/-- The walk after any number of iterations has appended the records of some
non-empty entries, numbered from the counter on. -/
theorem walk_steps_spec (src : ByteSource) (base : List Char) :
    ∀ (n c : Nat) (st : Run),
      ∃ ps : List PartitionEntry,
        (∀ p ∈ ps, p.partition_type ≠ 0)
        ∧ (walk_steps src base n (c, st)).2.out =
          st.out ++ numbered (walker_record base) st.partition_index ps
        ∧ (walk_steps src base n (c, st)).2.partition_index = st.partition_index + ps.length
        ∧ (walk_steps src base n (c, st)).2.header = st.header
  | 0, c, st => ⟨[], by simp, by simp [walk_steps, numbered], by simp [walk_steps], rfl⟩
  | n + 1, c, st => by
    by_cases hc : c = 0
    · exact ⟨[], by simp, by simp [walk_steps, hc, numbered], by simp [walk_steps, hc],
        by simp [walk_steps, hc]⟩
    · obtain ⟨ps, p1, p2, p3, p4⟩ := ebr_iteration_spec src base c st
      obtain ⟨qs, q1, q2, q3, q4⟩ := walk_steps_spec src base n
        (ebr_iteration src base c st).1 (ebr_iteration src base c st).2
      refine ⟨ps ++ qs, ?_, ?_, ?_, ?_⟩
      · intro p hp
        rcases List.mem_append.mp hp with h | h
        · exact p1 p h
        · exact q1 p h
      · simp only [walk_steps, hc, if_false]
        rw [q2, p2, p3, numbered_append, List.append_assoc]
      · simp only [walk_steps, hc, if_false]
        rw [q3, p3, List.length_append, Nat.add_assoc]
      · simp only [walk_steps, hc, if_false]
        rw [q4, p4]

theorem parse_extended_partition_spec (fuel : Nat) (src : ByteSource) (c : Nat)
    (base : List Char) (st st1 : Run)
    (h : parse_extended_partition fuel src c base st = some st1) :
    ∃ ps : List PartitionEntry,
      (∀ p ∈ ps, p.partition_type ≠ 0)
      ∧ st1.out = st.out ++ numbered (walker_record base) st.partition_index ps
      ∧ st1.partition_index = st.partition_index + ps.length
      ∧ st1.header = st.header := by
  unfold parse_extended_partition at h
  by_cases h0 : (walk_steps src base fuel (c, st)).1 = 0
  · simp only [h0, if_true, Option.some.injEq] at h
    rw [← h]
    exact walk_steps_spec src base fuel c st
  · simp [h0] at h

theorem extended_pass_spec (fuel : Nat) (src : ByteSource) (device : List Char) :
    ∀ (ps : List PartitionEntry) (st st1 : Run),
      extended_pass fuel src device ps st = some st1 →
      ∃ qs : List PartitionEntry,
        (∀ p ∈ qs, p.partition_type ≠ 0)
        ∧ st1.out = st.out ++ numbered (walker_record device) st.partition_index qs
        ∧ st1.partition_index = st.partition_index + qs.length
        ∧ st1.header = st.header
  | [], st, st1, h => by
    simp only [extended_pass, Option.some.injEq] at h
    subst h
    exact ⟨[], by simp, by simp [numbered], by simp, rfl⟩
  | p :: ps, st, st1, h => by
    by_cases hp : p.partition_type = 0x05 ∨ p.partition_type = 0x0F
    · simp only [extended_pass, hp, if_true] at h
      cases hw : parse_extended_partition fuel src p.start_sector_abs device st with
      | none => simp [hw] at h
      | some st2 =>
        simp only [hw] at h
        obtain ⟨as, a1, a2, a3, a4⟩ :=
          parse_extended_partition_spec fuel src _ device st st2 hw
        obtain ⟨bs, b1, b2, b3, b4⟩ := extended_pass_spec fuel src device ps st2 st1 h
        refine ⟨as ++ bs, ?_, ?_, ?_, ?_⟩
        · intro q hq
          rcases List.mem_append.mp hq with h | h
          · exact a1 q h
          · exact b1 q h
        · rw [b2, a2, a3, numbered_append, List.append_assoc]
        · rw [b3, a3, List.length_append, Nat.add_assoc]
        · rw [b4, a4]
    · simp only [extended_pass, hp, if_false] at h
      exact extended_pass_spec fuel src device ps st st1 h

/-! ## `main` as a whole -/

theorem main_of_valid (fuel : Nat) (device : List Char) (src : ByteSource)
    (hlen : (src.read 0 512).length = 512)
    (hsig : byteAt (src.read 0 512) 510 = 0x55 ∧ byteAt (src.read 0 512) 511 = 0xAA) :
    main fuel device src =
      (extended_pass fuel src device (mbrOf (src.read 0 512)).partitions
        (primary_state device (src.read 0 512))).map
        (fun st => (ExitStatus.EXIT_SUCCESS, st)) := by
  have h1 : (mbrOf (src.read 0 512)).signature = 0xAA55 :=
    (le16At_eq_iff (src.read 0 512) 510).mpr hsig
  unfold main primary_state
  simp only [hlen, h1, ne_eq, not_true_eq_false, if_false]
  cases extended_pass fuel src device (mbrOf (src.read 0 512)).partitions
    (primary_pass device (mbrOf (src.read 0 512)).partitions
      { Run.init with header := true }) <;> rfl

theorem main_of_invalid (fuel : Nat) (device : List Char) (src : ByteSource)
    (hlen : (src.read 0 512).length = 512)
    (hsig : ¬ (byteAt (src.read 0 512) 510 = 0x55 ∧ byteAt (src.read 0 512) 511 = 0xAA)) :
    main fuel device src =
      some (ExitStatus.EXIT_FAILURE,
        { header := false, out := [], seeks := [], reads := [],
          errs := ["Invalid MBR signature"], partition_index := 1 }) := by
  have h1 : (mbrOf (src.read 0 512)).signature ≠ 0xAA55 :=
    fun e => hsig ((le16At_eq_iff (src.read 0 512) 510).mp e)
  unfold main
  simp only [hlen, ne_eq, not_true_eq_false, if_false, h1, not_false_eq_true, if_true]
  rfl

theorem main_of_short (fuel : Nat) (device : List Char) (src : ByteSource)
    (hlen : (src.read 0 512).length ≠ 512) :
    main fuel device src =
      some (ExitStatus.EXIT_FAILURE,
        { header := false, out := [], seeks := [], reads := [],
          errs := ["read"], partition_index := 1 }) := by
  unfold main
  simp only [ne_eq, hlen, not_false_eq_true, if_true]
  rfl

theorem primary_state_spec (device : List Char) (buf : List Byte) :
    (primary_state device buf).out =
        numbered (primary_record device) 1 (nonempty_primaries buf)
      ∧ (primary_state device buf).partition_index = 1 + (nonempty_primaries buf).length
      ∧ (primary_state device buf).header = true
      ∧ (primary_state device buf).seeks = []
      ∧ (primary_state device buf).reads = []
      ∧ (primary_state device buf).errs = [] := by
  have h := primary_pass_spec device (mbrOf buf).partitions { Run.init with header := true }
  simpa [primary_state, nonempty_primaries, Run.init] using h

/-- Every finished run either failed before printing anything or printed the
primary records numbered from 1 followed by the walker records numbered on. -/
theorem main_spec (fuel : Nat) (device : List Char) (src : ByteSource)
    (r : ExitStatus × Run) (h : main fuel device src = some r) :
    (r.1 = ExitStatus.EXIT_FAILURE ∧ r.2.out = [] ∧ r.2.seeks = [] ∧ r.2.reads = []
        ∧ r.2.header = false ∧ r.2.partition_index = 1)
    ∨ ((src.read 0 512).length = 512
        ∧ (byteAt (src.read 0 512) 510 = 0x55 ∧ byteAt (src.read 0 512) 511 = 0xAA)
        ∧ r.1 = ExitStatus.EXIT_SUCCESS
        ∧ extended_pass fuel src device (mbrOf (src.read 0 512)).partitions
            (primary_state device (src.read 0 512)) = some r.2
        ∧ ∃ qs : List PartitionEntry,
          (∀ p ∈ qs, p.partition_type ≠ 0)
          ∧ r.2.out = numbered (primary_record device) 1 (nonempty_primaries (src.read 0 512))
              ++ numbered (walker_record device)
                (1 + (nonempty_primaries (src.read 0 512)).length) qs
          ∧ r.2.partition_index = 1 + (nonempty_primaries (src.read 0 512)).length + qs.length
          ∧ r.2.header = true) := by
  by_cases hlen : (src.read 0 512).length = 512
  · by_cases hsig : byteAt (src.read 0 512) 510 = 0x55 ∧ byteAt (src.read 0 512) 511 = 0xAA
    · right
      rw [main_of_valid fuel device src hlen hsig] at h
      cases hx : extended_pass fuel src device (mbrOf (src.read 0 512)).partitions
        (primary_state device (src.read 0 512)) with
      | none => simp [hx] at h
      | some st1 =>
        simp only [hx, Option.map_some', Option.some.injEq] at h
        subst h
        obtain ⟨qs, q1, q2, q3, q4⟩ := extended_pass_spec fuel src device _ _ _ hx
        obtain ⟨p1, p2, p3, _⟩ := primary_state_spec device (src.read 0 512)
        refine ⟨hlen, hsig, rfl, rfl, qs, q1, ?_, ?_, ?_⟩
        · rw [q2, p1, p2]
        · rw [q3, p2]
        · rw [q4, p3]
    · left
      rw [main_of_invalid fuel device src hlen hsig] at h
      simp only [Option.some.injEq] at h
      subst h
      simp
  · left
    rw [main_of_short fuel device src hlen] at h
    simp only [Option.some.injEq] at h
    subst h
    simp

/-- Every record of a finished run describes a non-empty entry, carries the
line `print_partition_info` prints for it, and is named after its slot. -/
theorem main_out_mem (fuel : Nat) (device : List Char) (src : ByteSource)
    (r : ExitStatus × Run) (h : main fuel device src = some r) :
    ∀ e ∈ r.2.out, e.entry.partition_type ≠ 0
      ∧ ∃ b, e.line = line_of (slot_name device e.slot) e.entry b := by
  intro e he
  rcases main_spec fuel device src r h with ⟨_, h0, _⟩ | ⟨_, _, _, _, qs, q1, q2, _, _⟩
  · rw [h0] at he
    simp at he
  · rw [q2] at he
    rcases List.mem_append.mp he with he | he
    · obtain ⟨i, p, hp, _, hr⟩ := mem_numbered _ _ _ _ he
      have hp0 : p.partition_type ≠ 0 := by
        unfold nonempty_primaries at hp
        simpa using (List.mem_filter.mp hp).2
      subst hr
      exact ⟨hp0, _, rfl⟩
    · obtain ⟨i, p, hp, _, hr⟩ := mem_numbered _ _ _ _ he
      subst hr
      exact ⟨q1 p hp, _, rfl⟩

theorem extended_pass_eq_foldlM (fuel : Nat) (src : ByteSource) (device : List Char) :
    ∀ (ps : List PartitionEntry) (st : Run),
      extended_pass fuel src device ps st =
        List.foldlM
          (fun s p => parse_extended_partition fuel src p.start_sector_abs device s) st
          (ps.filter (fun p => decide (p.partition_type = 0x05 ∨ p.partition_type = 0x0F)))
  | [], st => by simp [extended_pass]
  | p :: ps, st => by
    by_cases hp : p.partition_type = 0x05 ∨ p.partition_type = 0x0F
    · simp only [extended_pass, hp, if_true, decide_True, List.filter_cons_of_pos,
        List.foldlM_cons]
      cases hw : parse_extended_partition fuel src p.start_sector_abs device st with
      | none => rfl
      | some st2 =>
        simp only [Option.bind_eq_bind, Option.some_bind]
        exact extended_pass_eq_foldlM fuel src device ps st2
    · simp only [extended_pass, hp, if_false]
      rw [List.filter_cons_of_neg (by simpa using hp)]
      exact extended_pass_eq_foldlM fuel src device ps st

/-! ## C1: the signature check -/

/-- C1. For every 512-byte first sector, `main` goes on to the primary and
extended passes (and then exits with success) exactly when byte 510 is 0x55
and byte 511 is 0xAA; for any other two bytes it exits with failure after the
diagnostic "Invalid MBR signature", having printed no header and no
partition and having issued no seek and no EBR read. -/
theorem signature_check (fuel : Nat) (device : List Char) (src : ByteSource)
    (hlen : (src.read 0 512).length = 512) :
    ((byteAt (src.read 0 512) 510 = 0x55 ∧ byteAt (src.read 0 512) 511 = 0xAA) →
      main fuel device src =
        (extended_pass fuel src device (mbrOf (src.read 0 512)).partitions
          (primary_pass device (mbrOf (src.read 0 512)).partitions
            { Run.init with header := true })).map
          (fun st => (ExitStatus.EXIT_SUCCESS, st)))
    ∧ (¬ (byteAt (src.read 0 512) 510 = 0x55 ∧ byteAt (src.read 0 512) 511 = 0xAA) →
      main fuel device src =
        some (ExitStatus.EXIT_FAILURE,
          { header := false, out := [], seeks := [], reads := [],
            errs := ["Invalid MBR signature"], partition_index := 1 }))
    ∧ ((∃ st, main fuel device src = some (ExitStatus.EXIT_FAILURE, st)) ↔
        ¬ (byteAt (src.read 0 512) 510 = 0x55 ∧ byteAt (src.read 0 512) 511 = 0xAA)) := by
  refine ⟨fun h => main_of_valid fuel device src hlen h,
    fun h => main_of_invalid fuel device src hlen h, ?_, ?_⟩
  · rintro ⟨st, hst⟩ h
    rcases main_spec fuel device src _ hst with ⟨_, _⟩ | ⟨_, _, h3, _⟩
    · rw [main_of_valid fuel device src hlen h] at hst
      cases hx : extended_pass fuel src device (mbrOf (src.read 0 512)).partitions
        (primary_state device (src.read 0 512)) with
      | none => simp [hx] at hst
      | some a => simp [hx] at hst
    · simp at h3
  · intro h
    exact ⟨_, main_of_invalid fuel device src hlen h⟩

set_option maxRecDepth 100000 in
/-- C1 at a concrete first sector whose signature bytes are 0x55, 0xAB. -/
theorem signature_check_witness :
    (badSignatureImage.read 0 512).length = 512
    ∧ main 4 "/dev/sda".toList badSignatureImage =
        some (ExitStatus.EXIT_FAILURE,
          { header := false, out := [], seeks := [], reads := [],
            errs := ["Invalid MBR signature"], partition_index := 1 }) :=
  ⟨by decide,
    (signature_check 4 "/dev/sda".toList badSignatureImage (by decide)).2.1 (by decide)⟩

/-! ## C2: the primary pass -/

set_option maxRecDepth 100000 in
/-- C2 fails for a long device name: with the 17-character name
`/dev/disk/by-id/x` both primary partitions are printed under the
15-character name `/dev/disk/by-id`, not under the name followed by 1 and 2. -/
theorem primary_name_truncated :
    (main 4 longDevice twoPrimariesImage).map
        (fun r => r.2.out.map (fun e => (e.slot, e.line.dev_name)))
      = some [(1, "/dev/disk/by-id".toList), (2, "/dev/disk/by-id".toList)]
    ∧ "/dev/disk/by-id".toList ≠ longDevice ++ Nat.toDigits 10 1
    ∧ "/dev/disk/by-id".toList ≠ longDevice ++ Nat.toDigits 10 2 := by
  decide

/-- C2, amended. For a first sector with a valid signature the first loop of
`main` prints exactly the primary entries whose type is non-zero, in slot
order; the k-th of them (from 1) is numbered k, named by the first 15
characters of the device name followed by the decimal k, flagged bootable
exactly when its boot indicator is 0x80, and carries the line
`print_partition_info` prints for it; the counter ends at one more than their
number, and whatever a finished run prints starts with these records. -/
theorem primary_pass_reports (fuel : Nat) (device : List Char) (src : ByteSource)
    (hlen : (src.read 0 512).length = 512)
    (hsig : byteAt (src.read 0 512) 510 = 0x55 ∧ byteAt (src.read 0 512) 511 = 0xAA) :
    (primary_state device (src.read 0 512)).out.length
        = (nonempty_primaries (src.read 0 512)).length
    ∧ (primary_state device (src.read 0 512)).partition_index
        = 1 + (nonempty_primaries (src.read 0 512)).length
    ∧ (∀ k p, (nonempty_primaries (src.read 0 512))[k]? = some p →
        ∃ e, (primary_state device (src.read 0 512)).out[k]? = some e
          ∧ e.slot = k + 1 ∧ e.entry = p
          ∧ e.line.dev_name = (device ++ Nat.toDigits 10 (k + 1)).take 15
          ∧ e.line.is_bootable = decide (p.boot_indicator = 0x80)
          ∧ print_partition_info e.line.dev_name p e.line.is_bootable = some e.line)
    ∧ (∀ r, main fuel device src = some r →
        ∃ rest, r.2.out = (primary_state device (src.read 0 512)).out ++ rest) := by
  obtain ⟨p1, p2, _⟩ := primary_state_spec device (src.read 0 512)
  refine ⟨?_, p2, ?_, ?_⟩
  · rw [p1, length_numbered]
  · intro k p hk
    refine ⟨primary_record device (k + 1) p, ?_, rfl, rfl, rfl, rfl, ?_⟩
    · rw [p1, numbered_getElem?, hk, Nat.add_comm]
      rfl
    · have hp : p ∈ nonempty_primaries (src.read 0 512) := List.getElem?_mem hk
      have hp0 : p.partition_type ≠ 0 := by
        unfold nonempty_primaries at hp
        simpa using (List.mem_filter.mp hp).2
      exact print_partition_info_of_ne _ _ _ hp0
  · intro r hr
    rcases main_spec fuel device src r hr with ⟨h1, _⟩ | ⟨_, _, _, _, qs, _, q2, _, _⟩
    · rw [main_of_valid fuel device src hlen hsig] at hr
      cases hx : extended_pass fuel src device (mbrOf (src.read 0 512)).partitions
        (primary_state device (src.read 0 512)) with
      | none => simp [hx] at hr
      | some a =>
        simp only [hx, Option.map_some', Option.some.injEq] at hr
        subst hr
        simp at h1
    · exact ⟨_, by rw [q2, p1]⟩

set_option maxRecDepth 100000 in
/-- C2, amended, on a concrete image with partitions in slots 0 and 2. -/
theorem primary_pass_reports_witness :
    (twoPrimariesImage.read 0 512).length = 512
    ∧ (byteAt (twoPrimariesImage.read 0 512) 510 = 0x55
      ∧ byteAt (twoPrimariesImage.read 0 512) 511 = 0xAA)
    ∧ (primary_state "/dev/sda".toList (twoPrimariesImage.read 0 512)).partition_index
        = 1 + (nonempty_primaries (twoPrimariesImage.read 0 512)).length
    ∧ (primary_state "/dev/sda".toList (twoPrimariesImage.read 0 512)).out.map
        (fun e => (e.slot, e.line.dev_name, e.line.is_bootable))
      = [(1, "/dev/sda1".toList, true), (2, "/dev/sda2".toList, false)] :=
  ⟨by decide, by decide,
    (primary_pass_reports 4 "/dev/sda".toList twoPrimariesImage (by decide) (by decide)).2.1,
    by decide⟩

/-! ## C3: what one EBR contributes -/

set_option maxRecDepth 100000 in
/-- C3 fails at an EBR whose entry 1 is a link: at the EBR of sector 4096 of
`twoLogicalsImage` (entry 0 of type 0x83, entry 1 of type 0x05) one loop
iteration started with the counter at 3 prints two records, the second one
for entry 1 under slot 4, and leaves the counter at 5. -/
theorem ebr_entry1_reported :
    (ebr_iteration twoLogicalsImage "/dev/sda".toList 4096
        { Run.init with partition_index := 3 }).2.out.map
        (fun e => (e.slot, e.line.dev_name, e.entry.partition_type, e.entry.start_sector_abs))
      = [(3, "/dev/sda3".toList, 0x83, 4098), (4, "/dev/sda4".toList, 0x05, 8192)]
    ∧ (ebr_iteration twoLogicalsImage "/dev/sda".toList 4096
        { Run.init with partition_index := 3 }).2.partition_index = 5
    ∧ (ebr_iteration twoLogicalsImage "/dev/sda".toList 4096
        { Run.init with partition_index := 3 }).2.out.length ≠ 1 := by
  decide

/-- C3, amended. At every EBR the walker reads (seek and 32-byte read
succeed) it prints one record for entry 0 when its type is non-zero and then
one record for entry 1 when its type is non-zero, nothing else; each record
is numbered by the counter at that moment, named by the first 15 characters
of the base name followed by that number, and not flagged bootable; the
counter advances by the number of records printed; entry 1 also gives the
next cursor. -/
theorem ebr_visit_reports (src : ByteSource) (base : List Char) (c : Nat) (st : Run)
    (hseek : src.lseek ((c * 512) % 2 ^ 32) = true)
    (hread : (src.read ((c * 512) % 2 ^ 32) 32).length = 32) :
    (ebr_iteration src base c st).2.out =
        st.out
          ++ (if (entryAt (src.read ((c * 512) % 2 ^ 32) 32) 0).partition_type ≠ 0 then
                [walker_record base st.partition_index
                  (entryAt (src.read ((c * 512) % 2 ^ 32) 32) 0)]
              else [])
          ++ (if (entryAt (src.read ((c * 512) % 2 ^ 32) 32) 16).partition_type ≠ 0 then
                [walker_record base
                  (st.partition_index
                    + (if (entryAt (src.read ((c * 512) % 2 ^ 32) 32) 0).partition_type ≠ 0
                        then 1 else 0))
                  (entryAt (src.read ((c * 512) % 2 ^ 32) 32) 16)]
              else [])
    ∧ (ebr_iteration src base c st).2.partition_index =
        st.partition_index
          + (if (entryAt (src.read ((c * 512) % 2 ^ 32) 32) 0).partition_type ≠ 0
              then 1 else 0)
          + (if (entryAt (src.read ((c * 512) % 2 ^ 32) 32) 16).partition_type ≠ 0
              then 1 else 0)
    ∧ (ebr_iteration src base c st).2.partition_index =
        st.partition_index + ((ebr_iteration src base c st).2.out.length - st.out.length)
    ∧ (ebr_iteration src base c st).1 =
        next_ebr_of (entryAt (src.read ((c * 512) % 2 ^ 32) 32) 16)
    ∧ (∀ k p, (walker_record base k p).slot = k ∧ (walker_record base k p).entry = p
        ∧ (walker_record base k p).line.dev_name = (base ++ Nat.toDigits 10 k).take 15
        ∧ (walker_record base k p).line.is_bootable = false
        ∧ (p.partition_type ≠ 0 →
            print_partition_info ((base ++ Nat.toDigits 10 k).take 15) p false
              = some (walker_record base k p).line)) := by
  obtain ⟨h1, h2, h3, _⟩ := ebr_iteration_ok src base c st hseek hread
  have key : ∀ e0 e1 : PartitionEntry, ∀ k : Nat,
      numbered (walker_record base) k
          ([e0, e1].filter (fun p => decide (p.partition_type ≠ 0x00)))
        = (if e0.partition_type ≠ 0 then [walker_record base k e0] else [])
          ++ (if e1.partition_type ≠ 0 then
                [walker_record base (k + (if e0.partition_type ≠ 0 then 1 else 0)) e1]
              else [])
      ∧ ([e0, e1].filter (fun p => decide (p.partition_type ≠ 0x00))).length
        = (if e0.partition_type ≠ 0 then 1 else 0)
          + (if e1.partition_type ≠ 0 then 1 else 0) := by
    intro e0 e1 k
    by_cases a : e0.partition_type = 0 <;> by_cases b : e1.partition_type = 0 <;>
      simp [a, b, numbered]
  have hk := key (entryAt (src.read ((c * 512) % 2 ^ 32) 32) 0)
    (entryAt (src.read ((c * 512) % 2 ^ 32) 32) 16) st.partition_index
  have hout : (ebr_iteration src base c st).2.out.length - st.out.length
      = (ebr_nonempty (src.read ((c * 512) % 2 ^ 32) 32)).length := by
    rw [h2, List.length_append, length_numbered]
    omega
  refine ⟨?_, ?_, ?_, h1, ?_⟩
  · rw [h2, List.append_assoc, ← hk.1]
    rfl
  · rw [h3, Nat.add_assoc, ← hk.2]
    rfl
  · rw [hout, h3]
  · intro k p
    refine ⟨rfl, rfl, rfl, rfl, ?_⟩
    intro hp
    exact print_partition_info_of_ne _ _ _ hp

set_option maxRecDepth 100000 in
/-- C3, amended, at the first EBR of `twoLogicalsImage`. -/
theorem ebr_visit_reports_witness :
    twoLogicalsImage.lseek ((4096 * 512) % 2 ^ 32) = true
    ∧ (twoLogicalsImage.read ((4096 * 512) % 2 ^ 32) 32).length = 32
    ∧ (ebr_iteration twoLogicalsImage "/dev/sda".toList 4096 Run.init).1 = 8192 :=
  ⟨by decide, by decide,
    ((ebr_visit_reports twoLogicalsImage "/dev/sda".toList 4096 Run.init
      (by decide) (by decide)).2.2.2.1).trans (by decide)⟩

/-! ## C4: the cursor rule -/

theorem walk_steps_zero (src : ByteSource) (base : List Char) (st : Run) :
    ∀ n : Nat, walk_steps src base n (0, st) = (0, st)
  | 0 => rfl
  | _ + 1 => by simp [walk_steps]

theorem next_ebr_of_other (e1 : PartitionEntry) (h5 : e1.partition_type ≠ 0x05)
    (hF : e1.partition_type ≠ 0x0F) : next_ebr_of e1 = 0 := by
  unfold next_ebr_of
  rw [if_neg]
  rintro (h | h)
  · exact h5 h
  · exact hF h

/-- A walk whose current iteration yields cursor 0 returns right after it. -/
theorem parse_extended_partition_last (fuel : Nat) (src : ByteSource) (c : Nat)
    (base : List Char) (st : Run) (hc : c ≠ 0)
    (hnext : (ebr_iteration src base c st).1 = 0) :
    parse_extended_partition (fuel + 1) src c base st
      = some (ebr_iteration src base c st).2 := by
  have e : ebr_iteration src base c st = (0, (ebr_iteration src base c st).2) := by
    rw [← hnext]
  unfold parse_extended_partition
  simp only [walk_steps, hc, if_false]
  rw [e, walk_steps_zero]
  simp

set_option maxRecDepth 100000 in
/-- C4's example fails for a long device name: with the 17-character name
`/dev/disk/by-id/x` the logical partition of `oneLogicalImage` is printed
under the name `/dev/disk/by-id`, not under the device name followed by 2. -/
theorem chain_example_name_truncated :
    (main 4 longDevice oneLogicalImage).map
        (fun r => r.2.out.map (fun e => (e.slot, e.line.dev_name, e.entry.partition_type)))
      = some [(1, "/dev/disk/by-id".toList, 0x05), (2, "/dev/disk/by-id".toList, 0x83)]
    ∧ "/dev/disk/by-id".toList ≠ longDevice ++ "2".toList := by
  decide

/-- C4, amended. A walk started at sector 0 returns at once with the state
unchanged (no seek, no record). After an EBR has been read the next cursor is
entry 1's `start_sector_abs` when entry 1's type is 0x05 or 0x0F and 0
otherwise; in the latter case the walk returns after this EBR, having added
exactly one seek and one read, whatever entry 0 holds. Example: with slot 0
of type 0x05 at sector 4096, the other slots empty, and an EBR at byte offset
4096*512 whose entry 0 has type 0x83, start 4098, count 2048 and whose entry 1
has type 0x00, the run prints the extended entry under slot 1 and one logical
partition under slot 2, not flagged bootable and named by the first 15
characters of the device name followed by "2" (the whole of it when the
device name has at most 14 characters), and seeks and reads exactly once. -/
theorem walker_cursor_rule :
    (∀ (fuel : Nat) (src : ByteSource) (base : List Char) (st : Run),
      parse_extended_partition fuel src 0 base st = some st)
    ∧ (∀ (src : ByteSource) (base : List Char) (c : Nat) (st : Run),
      src.lseek ((c * 512) % 2 ^ 32) = true →
      (src.read ((c * 512) % 2 ^ 32) 32).length = 32 →
      (ebr_iteration src base c st).1 =
        if (entryAt (src.read ((c * 512) % 2 ^ 32) 32) 16).partition_type = 0x05
            ∨ (entryAt (src.read ((c * 512) % 2 ^ 32) 32) 16).partition_type = 0x0F
        then (entryAt (src.read ((c * 512) % 2 ^ 32) 32) 16).start_sector_abs else 0)
    ∧ (∀ (fuel : Nat) (src : ByteSource) (base : List Char) (c : Nat) (st : Run),
      c ≠ 0 →
      src.lseek ((c * 512) % 2 ^ 32) = true →
      (src.read ((c * 512) % 2 ^ 32) 32).length = 32 →
      (entryAt (src.read ((c * 512) % 2 ^ 32) 32) 16).partition_type ≠ 0x05 →
      (entryAt (src.read ((c * 512) % 2 ^ 32) 32) 16).partition_type ≠ 0x0F →
      ∃ st1, parse_extended_partition (fuel + 1) src c base st = some st1
        ∧ st1.seeks = st.seeks ++ [(c * 512) % 2 ^ 32]
        ∧ st1.reads = st.reads ++ [(c * 512) % 2 ^ 32]
        ∧ st1.out = st.out ++ numbered (walker_record base) st.partition_index
            (ebr_nonempty (src.read ((c * 512) % 2 ^ 32) 32)))
    ∧ (∀ (fuel : Nat) (device : List Char) (src : ByteSource),
      (src.read 0 512).length = 512 →
      (byteAt (src.read 0 512) 510 = 0x55 ∧ byteAt (src.read 0 512) 511 = 0xAA) →
      (entryAt (src.read 0 512) 446).partition_type = 0x05 →
      (entryAt (src.read 0 512) 446).start_sector_abs = 4096 →
      (entryAt (src.read 0 512) 462).partition_type = 0 →
      (entryAt (src.read 0 512) 478).partition_type = 0 →
      (entryAt (src.read 0 512) 494).partition_type = 0 →
      src.lseek (4096 * 512) = true →
      (src.read (4096 * 512) 32).length = 32 →
      (entryAt (src.read (4096 * 512) 32) 0).partition_type = 0x83 →
      (entryAt (src.read (4096 * 512) 32) 0).start_sector_abs = 4098 →
      (entryAt (src.read (4096 * 512) 32) 0).total_sectors = 2048 →
      (entryAt (src.read (4096 * 512) 32) 16).partition_type = 0x00 →
      ∃ r, main (fuel + 1) device src = some (ExitStatus.EXIT_SUCCESS, r)
        ∧ r.out = [primary_record device 1 (entryAt (src.read 0 512) 446),
                   walker_record device 2 (entryAt (src.read (4096 * 512) 32) 0)]
        ∧ r.seeks = [4096 * 512] ∧ r.reads = [4096 * 512] ∧ r.errs = []
        ∧ (walker_record device 2 (entryAt (src.read (4096 * 512) 32) 0)).line.dev_name
            = (device ++ "2".toList).take 15
        ∧ (walker_record device 2 (entryAt (src.read (4096 * 512) 32) 0)).line.is_bootable
            = false
        ∧ (device.length ≤ 14 →
            (walker_record device 2 (entryAt (src.read (4096 * 512) 32) 0)).line.dev_name
              = device ++ "2".toList)) := by
  refine ⟨?_, ?_, ?_, ?_⟩
  · intro fuel src base st
    unfold parse_extended_partition
    rw [walk_steps_zero]
    simp
  · intro src base c st hseek hread
    exact (ebr_iteration_ok src base c st hseek hread).1
  · intro fuel src base c st hc hseek hread h5 hF
    obtain ⟨h1, h2, _, _, h5', h6, _⟩ := ebr_iteration_ok src base c st hseek hread
    have hnext : (ebr_iteration src base c st).1 = 0 := by
      rw [h1]
      exact next_ebr_of_other _ h5 hF
    exact ⟨_, parse_extended_partition_last fuel src c base st hc hnext, h5', h6, h2⟩
  · intro fuel device src hlen hsig t0 s0 t1 t2 t3 hseek hread a0 a1 a2 b0
    have hoff : (4096 * 512) % 2 ^ 32 = 4096 * 512 := by decide
    have hseek1 : src.lseek ((4096 * 512) % 2 ^ 32) = true := by rw [hoff]; exact hseek
    have hread1 : (src.read ((4096 * 512) % 2 ^ 32) 32).length = 32 := by
      rw [hoff]; exact hread
    obtain ⟨p1, p2, p3, p4, p5, p6⟩ := primary_state_spec device (src.read 0 512)
    have hnz : nonempty_primaries (src.read 0 512) = [entryAt (src.read 0 512) 446] := by
      simp [nonempty_primaries, mbrOf, t0, t1, t2, t3]
    rw [hnz] at p1 p2
    obtain ⟨h1, h2, _, _, h5, h6, h7⟩ := ebr_iteration_ok src device 4096
      (primary_state device (src.read 0 512)) hseek1 hread1
    rw [hoff] at h1 h2 h5 h6
    have hnext : (ebr_iteration src device 4096
        (primary_state device (src.read 0 512))).1 = 0 := by
      rw [h1]
      exact next_ebr_of_other _ (by rw [b0]; decide) (by rw [b0]; decide)
    have hwalk := parse_extended_partition_last fuel src 4096 device
      (primary_state device (src.read 0 512)) (by decide) hnext
    have hne : ebr_nonempty (src.read (4096 * 512) 32)
        = [entryAt (src.read (4096 * 512) 32) 0] := by
      simp [ebr_nonempty, a0, b0]
    refine ⟨(ebr_iteration src device 4096 (primary_state device (src.read 0 512))).2,
      ?_, ?_, ?_, ?_, ?_, rfl, rfl, ?_⟩
    · rw [main_of_valid (fuel + 1) device src hlen hsig]
      simp [mbrOf, extended_pass, t0, t1, t2, t3, s0, hwalk]
    · rw [h2, p1, p2, hne]
      rfl
    · rw [h5, p4]
      rfl
    · rw [h6, p5]
      rfl
    · rw [h7, p6]
    · intro hd
      show (device ++ Nat.toDigits 10 2).take 15 = device ++ "2".toList
      have : (device ++ Nat.toDigits 10 2).length ≤ 15 := by
        have : (Nat.toDigits 10 2).length = 1 := by decide
        rw [List.length_append]
        omega
      rw [List.take_of_length_le this]
      rfl

set_option maxRecDepth 100000 in
/-- C4, amended, on the concrete image `oneLogicalImage` read as `/dev/sda`. -/
theorem walker_cursor_rule_witness :
    ∃ r, main 1 "/dev/sda".toList oneLogicalImage = some (ExitStatus.EXIT_SUCCESS, r)
      ∧ r.out.map (fun e => String.mk e.line.dev_name) = ["/dev/sda1", "/dev/sda2"]
      ∧ r.seeks = [4096 * 512] ∧ r.reads = [4096 * 512] := by
  obtain ⟨r, h1, h2, h3, h4, _⟩ :=
    walker_cursor_rule.2.2.2 0 "/dev/sda".toList oneLogicalImage
      (by decide) (by decide) (by decide) (by decide) (by decide) (by decide) (by decide)
      (by decide) (by decide) (by decide) (by decide) (by decide) (by decide)
  refine ⟨r, h1, ?_, h3, h4⟩
  rw [h2]
  decide

/-! ## C5: slot numbering with an extended partition -/

set_option maxRecDepth 100000 in
/-- C5 fails on `twoLogicalsImage` (primaries in slots 0 and 2, extended
entry in slot 1, a chain of two EBRs with one logical partition each): the
records carry slots 1..6; the two primaries get 1 and 3, the extended entry
gets 2, the two logical partitions get 4 and 6 and the link entry of the first
EBR gets 5. Each item is (slot, type, start sector). -/
theorem numbering_counterexample :
    (main 4 "/dev/sda".toList twoLogicalsImage).map
        (fun r => r.2.out.map
          (fun e => (e.slot, e.entry.partition_type, e.entry.start_sector_abs)))
      = some [(1, 0x83, 2048), (2, 0x05, 4096), (3, 0x83, 20480),
              (4, 0x83, 4098), (5, 0x05, 8192), (6, 0x83, 8194)]
    ∧ (main 4 "/dev/sda".toList twoLogicalsImage).map
        (fun r => r.2.out.map (fun e => e.slot)) ≠ some [1, 2, 3, 4] := by
  decide

/-- C5, amended. For every first sector with a valid signature and three
non-empty primary slots (such as two primary partitions and one extended
partition, in any slots) a finished run numbers its records 1, 2, 3, ... in
output order without a gap: the three primary entries, the extended one
included, take 1, 2, 3 in slot order, and the records printed by the walks
take 4, 5, ... -/
theorem numbering_three_primaries (fuel : Nat) (device : List Char) (src : ByteSource)
    (r : ExitStatus × Run)
    (hlen : (src.read 0 512).length = 512)
    (hsig : byteAt (src.read 0 512) 510 = 0x55 ∧ byteAt (src.read 0 512) 511 = 0xAA)
    (h3 : (nonempty_primaries (src.read 0 512)).length = 3)
    (h : main fuel device src = some r) :
    r.2.out.map (fun e => e.slot) = List.range' 1 r.2.out.length
    ∧ 3 ≤ r.2.out.length
    ∧ (r.2.out.take 3).map (fun e => e.entry) = nonempty_primaries (src.read 0 512)
    ∧ (r.2.out.take 3).map (fun e => e.slot) = [1, 2, 3]
    ∧ (r.2.out.drop 3).map (fun e => e.slot) = List.range' 4 (r.2.out.length - 3)
    ∧ (r.2.out.length = 5 → r.2.out.map (fun e => e.slot) = [1, 2, 3, 4, 5]) := by
  rcases main_spec fuel device src r h with ⟨h1, _⟩ | ⟨_, _, _, _, qs, _, q2, _, _⟩
  · rw [main_of_valid fuel device src hlen hsig] at h
    cases hx : extended_pass fuel src device (mbrOf (src.read 0 512)).partitions
      (primary_state device (src.read 0 512)) with
    | none => simp [hx] at h
    | some a =>
      simp only [hx, Option.map_some', Option.some.injEq] at h
      subst h
      simp at h1
  · have hp : (numbered (primary_record device) 1
        (nonempty_primaries (src.read 0 512))).length = 3 := by
      rw [length_numbered, h3]
    have hlenout : r.2.out.length = 3 + qs.length := by
      rw [q2, List.length_append, hp, length_numbered]
    have hs1 : (numbered (primary_record device) 1
        (nonempty_primaries (src.read 0 512))).map (fun e => e.slot) = [1, 2, 3] := by
      rw [map_slot_numbered _ (fun _ _ => rfl), h3]
      rfl
    have hs2 : (numbered (walker_record device) (1 + 3) qs).map (fun e => e.slot)
        = List.range' 4 qs.length := by
      rw [map_slot_numbered _ (fun _ _ => rfl)]
    have hall : r.2.out.map (fun e => e.slot) = List.range' 1 r.2.out.length := by
      rw [hlenout, q2, List.map_append, hs1, h3, hs2]
      have : List.range' 1 (3 + qs.length) = List.range' 1 3 ++ List.range' 4 qs.length := by
        rw [List.range'_append_1, Nat.add_comm]
      rw [this]
      rfl
    have htake : r.2.out.take 3 = numbered (primary_record device) 1
        (nonempty_primaries (src.read 0 512)) := by
      rw [q2, List.take_left' hp]
    have hdrop : r.2.out.drop 3 = numbered (walker_record device) (1 + 3) qs := by
      rw [q2, h3, List.drop_left' hp]
    refine ⟨hall, by omega, ?_, ?_, ?_, ?_⟩
    · rw [htake, map_entry_numbered _ (fun _ _ => rfl)]
    · rw [htake, hs1]
    · rw [hdrop, hs2, hlenout]
      congr 1
      omega
    · intro h5
      rw [hall, h5]
      rfl

set_option maxRecDepth 100000 in
/-- C5, amended, on `twoLogicalsImage`. -/
theorem numbering_three_primaries_witness :
    ∃ r, main 4 "/dev/sda".toList twoLogicalsImage = some r
      ∧ r.2.out.map (fun e => e.slot) = List.range' 1 r.2.out.length
      ∧ (r.2.out.take 3).map (fun e => e.slot) = [1, 2, 3] := by
  have hsome : (main 4 "/dev/sda".toList twoLogicalsImage).isSome = true := by decide
  obtain ⟨r, hr⟩ := Option.isSome_iff_exists.mp hsome
  have h := numbering_three_primaries 4 "/dev/sda".toList twoLogicalsImage r
    (by decide) (by decide) (by decide) hr
  exact ⟨r, hr, h.1, h.2.2.2.1⟩

/-! ## C6: primary records come first -/

/-- C6. For every first sector with a valid signature and every byte source
on which the walks finish, the output is the output of the primary loop
followed by the records of the walks; every record of a walk has a larger
slot number than every primary record; and the final state is reached by
running the walker once for each primary entry of type 0x05 or 0x0F, in slot
order, starting at its `start_sector_abs`, each walk continuing from the state
(and counter) the previous one left. -/
theorem primary_before_logical (fuel : Nat) (device : List Char) (src : ByteSource)
    (r : ExitStatus × Run)
    (hlen : (src.read 0 512).length = 512)
    (hsig : byteAt (src.read 0 512) 510 = 0x55 ∧ byteAt (src.read 0 512) 511 = 0xAA)
    (h : main fuel device src = some r) :
    ∃ logical : List Reported,
      r.2.out = (primary_state device (src.read 0 512)).out ++ logical
      ∧ (primary_state device (src.read 0 512)).out.map (fun e => e.entry)
          = nonempty_primaries (src.read 0 512)
      ∧ (∀ a ∈ (primary_state device (src.read 0 512)).out, ∀ b ∈ logical, a.slot < b.slot)
      ∧ List.foldlM
          (fun st p => parse_extended_partition fuel src p.start_sector_abs device st)
          (primary_state device (src.read 0 512)) (extended_primaries (src.read 0 512))
        = some r.2 := by
  obtain ⟨p1, _⟩ := primary_state_spec device (src.read 0 512)
  rcases main_spec fuel device src r h with ⟨h1, _⟩ | ⟨_, _, _, hx, qs, _, q2, _, _⟩
  · rw [main_of_valid fuel device src hlen hsig] at h
    cases hx : extended_pass fuel src device (mbrOf (src.read 0 512)).partitions
      (primary_state device (src.read 0 512)) with
    | none => simp [hx] at h
    | some a =>
      simp only [hx, Option.map_some', Option.some.injEq] at h
      subst h
      simp at h1
  · refine ⟨numbered (walker_record device)
      (1 + (nonempty_primaries (src.read 0 512)).length) qs, ?_, ?_, ?_, ?_⟩
    · rw [q2, p1]
    · rw [p1, map_entry_numbered _ (fun _ _ => rfl)]
    · intro a ha b hb
      rw [p1] at ha
      obtain ⟨i, _, _, hi, ha'⟩ := mem_numbered _ _ _ _ ha
      obtain ⟨j, _, _, _, hb'⟩ := mem_numbered _ _ _ _ hb
      subst ha' hb'
      show 1 + i < 1 + (nonempty_primaries (src.read 0 512)).length + j
      omega
    · rw [← hx, extended_pass_eq_foldlM]
      rfl

set_option maxRecDepth 100000 in
/-- C6 on `twoLogicalsImage`, whose extended entry sits between two primaries. -/
theorem primary_before_logical_witness :
    ∃ r, main 4 "/dev/sda".toList twoLogicalsImage = some r
      ∧ ∃ logical : List Reported,
        r.2.out = (primary_state "/dev/sda".toList (twoLogicalsImage.read 0 512)).out ++ logical
        ∧ (∀ a ∈ (primary_state "/dev/sda".toList (twoLogicalsImage.read 0 512)).out,
            ∀ b ∈ logical, a.slot < b.slot) := by
  have hsome : (main 4 "/dev/sda".toList twoLogicalsImage).isSome = true := by decide
  obtain ⟨r, hr⟩ := Option.isSome_iff_exists.mp hsome
  obtain ⟨logical, h1, _, h3, _⟩ :=
    primary_before_logical 4 "/dev/sda".toList twoLogicalsImage r (by decide) (by decide) hr
  exact ⟨r, hr, logical, h1, h3⟩

/-! ## C7: the type table -/

set_option maxRecDepth 1000000 in
/-- C7. `get_partition_type` is defined on every value and is the table
0x0B, 0x0C, 0x83, 0x05, 0x07, 0x82, 0xEF, 0xA0 with "Unknown" for everything
else: of the 256 byte values exactly 248 are labelled "Unknown", the LBA
extended marker 0x0F among them. -/
theorem get_partition_type_table :
    (∀ t : Nat, get_partition_type t =
      if t = 0x0B then "W95 FAT32"
      else if t = 0x0C then "W95 FAT32 (LBA)"
      else if t = 0x83 then "Linux"
      else if t = 0x05 then "Extended"
      else if t = 0x07 then "HPFS/NTFS/exFAT"
      else if t = 0x82 then "Linux swap / Solaris"
      else if t = 0xEF then "EFI System"
      else if t = 0xA0 then "BIOS boot"
      else "Unknown")
    ∧ ((List.range 256).filter (fun t => get_partition_type t = "Unknown")).length = 248
    ∧ (∀ t : Nat, t < 256 → get_partition_type t ≠ "Unknown" →
        t ∈ [0x0B, 0x0C, 0x83, 0x05, 0x07, 0x82, 0xEF, 0xA0])
    ∧ get_partition_type 0x0F = "Unknown" := by
  have table : ∀ t : Nat, get_partition_type t =
      if t = 0x0B then "W95 FAT32"
      else if t = 0x0C then "W95 FAT32 (LBA)"
      else if t = 0x83 then "Linux"
      else if t = 0x05 then "Extended"
      else if t = 0x07 then "HPFS/NTFS/exFAT"
      else if t = 0x82 then "Linux swap / Solaris"
      else if t = 0xEF then "EFI System"
      else if t = 0xA0 then "BIOS boot"
      else "Unknown" := by
    intro t
    unfold get_partition_type
    split <;> simp_all
  refine ⟨table, by decide, ?_, by decide⟩
  intro t _ hne
  rw [table] at hne
  by_contra hmem
  simp only [List.mem_cons, List.mem_singleton, List.not_mem_nil, or_false, not_or] at hmem
  obtain ⟨a1, a2, a3, a4, a5, a6, a7, a8⟩ := hmem
  simp [a1, a2, a3, a4, a5, a6, a7, a8] at hne

set_option maxRecDepth 100000 in
/-- C7 at the type byte 0x83. -/
theorem get_partition_type_table_witness :
    0x83 < 256 ∧ get_partition_type 0x83 ≠ "Unknown"
    ∧ 0x83 ∈ [0x0B, 0x0C, 0x83, 0x05, 0x07, 0x82, 0xEF, 0xA0] :=
  ⟨by decide, by decide, get_partition_type_table.2.2.1 0x83 (by decide) (by decide)⟩

/-! ## C8: empty entries are never reported -/

/-- C8. An entry whose type is 0 prints nothing and leaves the counter alone,
in `print_partition_info`, in the primary loop and in the walker; hence every
record of a finished run, and every record a walk has printed after any number
of iterations, describes an entry whose type is non-zero and carries the line
`print_partition_info` prints for it, and the counter of a finished run is
one more than the number of records printed. -/
theorem empty_type_never_reported :
    (∀ (name : List Char) (p : PartitionEntry) (b : Bool),
      p.partition_type = 0 → print_partition_info name p b = none)
    ∧ (∀ (device : List Char) (p : PartitionEntry) (ps : List PartitionEntry) (st : Run),
      p.partition_type = 0 → primary_pass device (p :: ps) st = primary_pass device ps st)
    ∧ (∀ (base : List Char) (p : PartitionEntry) (st : Run),
      p.partition_type = 0 → ebr_entry base p st = st)
    ∧ (∀ (fuel : Nat) (device : List Char) (src : ByteSource) (r : ExitStatus × Run),
      main fuel device src = some r →
      (∀ e ∈ r.2.out, e.entry.partition_type ≠ 0
        ∧ print_partition_info e.line.dev_name e.entry e.line.is_bootable = some e.line)
      ∧ r.2.partition_index = 1 + r.2.out.length)
    ∧ (∀ (src : ByteSource) (base : List Char) (n c : Nat) (st : Run),
      (∀ e ∈ st.out, e.entry.partition_type ≠ 0) →
      (∀ e ∈ (walk_steps src base n (c, st)).2.out, e.entry.partition_type ≠ 0)
      ∧ (walk_steps src base n (c, st)).2.partition_index - st.partition_index
          = (walk_steps src base n (c, st)).2.out.length - st.out.length) := by
  refine ⟨print_partition_info_of_eq, ?_, ebr_entry_of_eq, ?_, ?_⟩
  · intro device p ps st hp
    simp [primary_pass, hp]
  · intro fuel device src r h
    constructor
    · intro e he
      obtain ⟨h0, b, hb⟩ := main_out_mem fuel device src r h e he
      refine ⟨h0, ?_⟩
      rw [print_partition_info_of_ne _ _ _ h0]
      have e1 : e.line.dev_name = slot_name device e.slot := by rw [hb]; rfl
      have e2 : e.line.is_bootable = b := by rw [hb]; rfl
      rw [e1, e2, hb]
    · rcases main_spec fuel device src r h with ⟨_, h0, _, _, _, hi⟩ |
        ⟨_, _, _, _, qs, _, q2, q3, _⟩
      · rw [h0, hi]
        rfl
      · rw [q2, q3, List.length_append, length_numbered, length_numbered]
        omega
  · intro src base n c st hst
    obtain ⟨ps, p1, p2, p3, _⟩ := walk_steps_spec src base n c st
    constructor
    · intro e he
      rw [p2] at he
      rcases List.mem_append.mp he with he | he
      · exact hst e he
      · obtain ⟨i, p, hp, _, hr⟩ := mem_numbered _ _ _ _ he
        subst hr
        exact p1 p hp
    · rw [p2, p3, List.length_append, length_numbered]
      omega

set_option maxRecDepth 100000 in
/-- C8 on `twoLogicalsImage`, which has an empty primary slot and an empty
second entry in its last EBR: six records, counter 7. -/
theorem empty_type_never_reported_witness :
    ∃ r, main 4 "/dev/sda".toList twoLogicalsImage = some r
      ∧ (∀ e ∈ r.2.out, e.entry.partition_type ≠ 0
        ∧ print_partition_info e.line.dev_name e.entry e.line.is_bootable = some e.line)
      ∧ r.2.partition_index = 1 + r.2.out.length := by
  have hsome : (main 4 "/dev/sda".toList twoLogicalsImage).isSome = true := by decide
  obtain ⟨r, hr⟩ := Option.isSome_iff_exists.mp hsome
  have h := empty_type_never_reported.2.2.2.1 4 "/dev/sda".toList twoLogicalsImage r hr
  exact ⟨r, hr, h.1, h.2⟩

/-! ## C9: logical partitions are never flagged bootable -/

/-- C9. Every record the walker prints, after any number of iterations and in
any finished walk, has `is_bootable = false`, whatever the boot indicator of
its entry is: the record printed for a non-empty EBR entry is not flagged even
when the boot indicator is 0x80. -/
theorem logical_never_bootable :
    (∀ (src : ByteSource) (base : List Char) (n c : Nat) (st : Run),
      ∃ new, (walk_steps src base n (c, st)).2.out = st.out ++ new
        ∧ ∀ e ∈ new, e.line.is_bootable = false)
    ∧ (∀ (fuel : Nat) (src : ByteSource) (c : Nat) (base : List Char) (st st1 : Run),
      parse_extended_partition fuel src c base st = some st1 →
      ∃ new, st1.out = st.out ++ new ∧ ∀ e ∈ new, e.line.is_bootable = false)
    ∧ (∀ (base : List Char) (p : PartitionEntry) (st : Run),
      p.partition_type ≠ 0 → p.boot_indicator = 0x80 →
      ∃ e, (ebr_entry base p st).out = st.out ++ [e] ∧ e.entry = p
        ∧ e.line.is_bootable = false) := by
  refine ⟨?_, ?_, ?_⟩
  · intro src base n c st
    obtain ⟨ps, _, p2, _⟩ := walk_steps_spec src base n c st
    refine ⟨_, p2, ?_⟩
    intro e he
    obtain ⟨i, p, _, _, hr⟩ := mem_numbered _ _ _ _ he
    subst hr
    rfl
  · intro fuel src c base st st1 h
    obtain ⟨ps, _, p2, _⟩ := parse_extended_partition_spec fuel src c base st st1 h
    refine ⟨_, p2, ?_⟩
    intro e he
    obtain ⟨i, p, _, _, hr⟩ := mem_numbered _ _ _ _ he
    subst hr
    rfl
  · intro base p st hp _
    refine ⟨walker_record base st.partition_index p, ?_, rfl, rfl⟩
    rw [ebr_entry_of_ne base p st hp]

set_option maxRecDepth 100000 in
/-- C9 at entry 0 of the first EBR of `twoLogicalsImage`, whose boot
indicator is 0x80. -/
theorem logical_never_bootable_witness :
    (entryAt (twoLogicalsImage.read (4096 * 512) 32) 0).partition_type ≠ 0
    ∧ (entryAt (twoLogicalsImage.read (4096 * 512) 32) 0).boot_indicator = 0x80
    ∧ ∃ e, (ebr_entry "/dev/sda".toList (entryAt (twoLogicalsImage.read (4096 * 512) 32) 0)
          Run.init).out = Run.init.out ++ [e]
        ∧ e.entry = entryAt (twoLogicalsImage.read (4096 * 512) 32) 0
        ∧ e.line.is_bootable = false :=
  ⟨by decide, by decide,
    logical_never_bootable.2.2 "/dev/sda".toList
      (entryAt (twoLogicalsImage.read (4096 * 512) 32) 0) Run.init (by decide) (by decide)⟩

/-! ## C10: start, end and count -/

set_option maxRecDepth 100000 in
/-- C10 fails when the sum leaves 32 bits: the partition of `wrappingImage`
(start 4294967295, 2 sectors) is printed with end sector 0, not
4294967295 + 2 - 1. Each item is (start, end, count). -/
theorem end_sector_wraps :
    (main 4 "/dev/sda".toList wrappingImage).map
        (fun r => r.2.out.map (fun e => (e.line.start, e.line.end_sector, e.line.sectors)))
      = some [(4294967295, 0, 2)]
    ∧ (0 : Nat) ≠ 4294967295 + 2 - 1 := by
  decide

/-- C10, amended. Every printed line shows the entry's `start_sector_abs` and
`total_sectors` unchanged, and for `total_sectors ≠ 0` its end sector is
`(start_sector_abs + total_sectors - 1) mod 2^32`, which is
`start_sector_abs + total_sectors - 1` whenever
`start_sector_abs + total_sectors ≤ 2^32`; this holds for
`print_partition_info` and for every record of a finished run. -/
theorem reported_sectors :
    (∀ (name : List Char) (p : PartitionEntry) (b : Bool) (l : Line),
      print_partition_info name p b = some l →
      l.start = p.start_sector_abs ∧ l.sectors = p.total_sectors
      ∧ (p.total_sectors ≠ 0 →
          l.end_sector = (p.start_sector_abs + p.total_sectors - 1) % 2 ^ 32
          ∧ (p.start_sector_abs + p.total_sectors ≤ 2 ^ 32 →
              l.end_sector = p.start_sector_abs + p.total_sectors - 1)))
    ∧ (∀ (fuel : Nat) (device : List Char) (src : ByteSource) (r : ExitStatus × Run),
      main fuel device src = some r →
      ∀ e ∈ r.2.out,
        e.line.start = e.entry.start_sector_abs ∧ e.line.sectors = e.entry.total_sectors
        ∧ (e.entry.total_sectors ≠ 0 →
            e.line.end_sector
                = (e.entry.start_sector_abs + e.entry.total_sectors - 1) % 2 ^ 32
            ∧ (e.entry.start_sector_abs + e.entry.total_sectors ≤ 2 ^ 32 →
                e.line.end_sector
                  = e.entry.start_sector_abs + e.entry.total_sectors - 1))) := by
  have hend : ∀ p : PartitionEntry, p.total_sectors ≠ 0 →
      end_sector_of p = (p.start_sector_abs + p.total_sectors - 1) % 2 ^ 32
      ∧ (p.start_sector_abs + p.total_sectors ≤ 2 ^ 32 →
          end_sector_of p = p.start_sector_abs + p.total_sectors - 1) := by
    intro p hp
    unfold end_sector_of
    constructor
    · omega
    · intro hle
      omega
  have hline : ∀ (name : List Char) (p : PartitionEntry) (b : Bool),
      (line_of name p b).start = p.start_sector_abs
      ∧ (line_of name p b).sectors = p.total_sectors
      ∧ (p.total_sectors ≠ 0 →
          (line_of name p b).end_sector = (p.start_sector_abs + p.total_sectors - 1) % 2 ^ 32
          ∧ (p.start_sector_abs + p.total_sectors ≤ 2 ^ 32 →
              (line_of name p b).end_sector = p.start_sector_abs + p.total_sectors - 1)) :=
    fun name p b => ⟨rfl, rfl, hend p⟩
  constructor
  · intro name p b l h
    by_cases hp : p.partition_type = 0
    · rw [print_partition_info_of_eq _ _ _ hp] at h
      simp at h
    · rw [print_partition_info_of_ne _ _ _ hp] at h
      simp only [Option.some.injEq] at h
      subst h
      exact hline name p b
  · intro fuel device src r h e he
    obtain ⟨_, b, hb⟩ := main_out_mem fuel device src r h e he
    rw [hb]
    exact hline _ _ _

set_option maxRecDepth 100000 in
/-- C10, amended, at the first entry of `twoPrimariesImage`: start 2048,
count 204800, end 206847. -/
theorem reported_sectors_witness :
    ∃ l, print_partition_info "/dev/sda1".toList
          (entryAt (twoPrimariesImage.read 0 512) 446) true = some l
      ∧ l.start = 2048 ∧ l.sectors = 204800 ∧ l.end_sector = 206847 := by
  have hp : print_partition_info "/dev/sda1".toList
      (entryAt (twoPrimariesImage.read 0 512) 446) true
      = some (line_of "/dev/sda1".toList (entryAt (twoPrimariesImage.read 0 512) 446) true) :=
    print_partition_info_of_ne _ _ _ (by decide)
  obtain ⟨h1, h2, h3⟩ := reported_sectors.1 _ _ _ _ hp
  refine ⟨_, hp, h1.trans (by decide), h2.trans (by decide), ?_⟩
  exact ((h3 (by decide)).2 (by decide)).trans (by decide)

/-! ## More on the walker loop -/

theorem ebr_iteration_seek_fail (src : ByteSource) (base : List Char) (c : Nat) (st : Run)
    (h : src.lseek ((c * 512) % 2 ^ 32) = false) :
    ebr_iteration src base c st =
      (0, { st with seeks := st.seeks ++ [(c * 512) % 2 ^ 32]
                    errs := st.errs ++ ["lseek"] }) := by
  simp only [ebr_iteration, h, if_true]

theorem ebr_iteration_read_fail (src : ByteSource) (base : List Char) (c : Nat) (st : Run)
    (hs : src.lseek ((c * 512) % 2 ^ 32) = true)
    (hr : (src.read ((c * 512) % 2 ^ 32) 32).length ≠ 32) :
    ebr_iteration src base c st =
      (0, { st with seeks := st.seeks ++ [(c * 512) % 2 ^ 32]
                    reads := st.reads ++ [(c * 512) % 2 ^ 32]
                    errs := st.errs ++ ["read"] }) := by
  simp only [ebr_iteration, hs, Bool.true_eq_false, if_false, ne_eq, hr,
    not_false_eq_true, if_true]

theorem ebr_iteration_seeks (src : ByteSource) (base : List Char) (c : Nat) (st : Run) :
    (ebr_iteration src base c st).2.seeks = st.seeks ++ [(c * 512) % 2 ^ 32] := by
  cases hs : src.lseek ((c * 512) % 2 ^ 32)
  · rw [ebr_iteration_seek_fail src base c st hs]
  · by_cases hr : (src.read ((c * 512) % 2 ^ 32) 32).length = 32
    · exact (ebr_iteration_ok src base c st hs hr).2.2.2.2.1
    · rw [ebr_iteration_read_fail src base c st hs hr]

theorem walk_steps_succ (src : ByteSource) (base : List Char) (n c : Nat) (st : Run)
    (hc : c ≠ 0) :
    walk_steps src base (n + 1) (c, st) = walk_steps src base n (ebr_iteration src base c st) := by
  simp only [walk_steps, hc, if_false]

theorem walk_steps_add (src : ByteSource) (base : List Char) :
    ∀ (n m : Nat) (s : Nat × Run),
      walk_steps src base (n + m) s = walk_steps src base m (walk_steps src base n s)
  | 0, m, s => by simp [walk_steps]
  | n + 1, m, (c, st) => by
    by_cases hc : c = 0
    · subst hc
      rw [walk_steps_zero, walk_steps_zero, walk_steps_zero]
    · have e : n + 1 + m = (n + m) + 1 := by omega
      rw [e, walk_steps_succ src base (n + m) c st hc, walk_steps_succ src base n c st hc]
      exact walk_steps_add src base n m _

/-! ## C11: the seek offset -/

set_option maxRecDepth 100000 in
/-- C11, the code at a cursor of 2^23 or more. Every loop iteration seeks to
`(cursor * 512) mod 2^32`, the product being taken in 32 bits; for the
extended partition of `overflowImage`, which starts at sector 8388608, the
walker seeks to byte offset 0 and reads the first 32 bytes of the first sector
as the EBR, where `cursor * 512` is 4294967296. -/
theorem seek_offset_wraps :
    (∀ (src : ByteSource) (base : List Char) (c : Nat) (st : Run),
      (ebr_iteration src base c st).2.seeks = st.seeks ++ [(c * 512) % 2 ^ 32])
    ∧ (main 4 "/dev/sda".toList overflowImage).map
        (fun r => (r.2.out.map (fun e => (e.slot, e.entry.partition_type,
          e.entry.start_sector_abs)), r.2.seeks, r.2.reads))
      = some ([(1, 0x05, 8388608)], [0], [0])
    ∧ (8388608 : Nat) < 2 ^ 32
    ∧ (0 : Nat) ≠ 8388608 * 512 :=
  ⟨ebr_iteration_seeks, by decide, by decide, by decide⟩

/-! ## C12: a failing seek or read ends only the current walk -/

/-- C12. When the seek fails, or the seek succeeds and the read does not
deliver 32 bytes, the loop iteration ends the walk (cursor 0) with the output
and the counter unchanged and one diagnostic added; so a walk that fails
after `n` iterations returns the records printed before the failure, the
earlier output being a prefix of them, with the counter as it was; and `main`
goes on with the remaining primary slots from the state that walk returned. -/
theorem walk_failure_keeps_output :
    (∀ (src : ByteSource) (base : List Char) (c : Nat) (st : Run),
      src.lseek ((c * 512) % 2 ^ 32) = false →
      ebr_iteration src base c st =
        (0, { st with seeks := st.seeks ++ [(c * 512) % 2 ^ 32]
                      errs := st.errs ++ ["lseek"] }))
    ∧ (∀ (src : ByteSource) (base : List Char) (c : Nat) (st : Run),
      src.lseek ((c * 512) % 2 ^ 32) = true →
      (src.read ((c * 512) % 2 ^ 32) 32).length ≠ 32 →
      ebr_iteration src base c st =
        (0, { st with seeks := st.seeks ++ [(c * 512) % 2 ^ 32]
                      reads := st.reads ++ [(c * 512) % 2 ^ 32]
                      errs := st.errs ++ ["read"] }))
    ∧ (∀ (src : ByteSource) (base : List Char) (n k c : Nat) (st : Run),
      (walk_steps src base n (c, st)).1 ≠ 0 →
      (src.lseek (((walk_steps src base n (c, st)).1 * 512) % 2 ^ 32) = false
        ∨ (src.read (((walk_steps src base n (c, st)).1 * 512) % 2 ^ 32) 32).length ≠ 32) →
      ∃ st1, parse_extended_partition (n + 1 + k) src c base st = some st1
        ∧ st1.out = (walk_steps src base n (c, st)).2.out
        ∧ st1.partition_index = (walk_steps src base n (c, st)).2.partition_index
        ∧ (∃ new, st1.out = st.out ++ new)
        ∧ st1.seeks.length = (walk_steps src base n (c, st)).2.seeks.length + 1
        ∧ st1.errs.length = (walk_steps src base n (c, st)).2.errs.length + 1)
    ∧ (∀ (fuel : Nat) (src : ByteSource) (device : List Char) (p : PartitionEntry)
        (ps : List PartitionEntry) (st st1 : Run),
      (p.partition_type = 0x05 ∨ p.partition_type = 0x0F) →
      parse_extended_partition fuel src p.start_sector_abs device st = some st1 →
      extended_pass fuel src device (p :: ps) st = extended_pass fuel src device ps st1) := by
  refine ⟨ebr_iteration_seek_fail, ebr_iteration_read_fail, ?_, ?_⟩
  · intro src base n k c st hc hfail
    obtain ⟨ps, _, p2, _⟩ := walk_steps_spec src base n c st
    have hstep : walk_steps src base (n + 1 + k) (c, st)
        = (0, (ebr_iteration src base (walk_steps src base n (c, st)).1
            (walk_steps src base n (c, st)).2).2) := by
      have e : n + 1 + k = n + (1 + k) := by omega
      have e1 : 1 + k = k + 1 := by omega
      rw [e, walk_steps_add, e1]
      have hpair : walk_steps src base n (c, st)
          = ((walk_steps src base n (c, st)).1, (walk_steps src base n (c, st)).2) := rfl
      rw [hpair, walk_steps_succ src base k _ _ hc]
      have h0 : (ebr_iteration src base (walk_steps src base n (c, st)).1
          (walk_steps src base n (c, st)).2).1 = 0 :=
        (ebr_iteration_fail src base _ _ hfail).1
      have hpair2 : ebr_iteration src base (walk_steps src base n (c, st)).1
            (walk_steps src base n (c, st)).2
          = (0, (ebr_iteration src base (walk_steps src base n (c, st)).1
            (walk_steps src base n (c, st)).2).2) := by
        rw [← h0]
      rw [hpair2, walk_steps_zero]
    obtain ⟨_, f2, f3, _⟩ := ebr_iteration_fail src base (walk_steps src base n (c, st)).1
      (walk_steps src base n (c, st)).2 hfail
    refine ⟨(ebr_iteration src base (walk_steps src base n (c, st)).1
        (walk_steps src base n (c, st)).2).2, ?_, f2, f3, ⟨_, f2.trans p2⟩, ?_, ?_⟩
    · unfold parse_extended_partition
      rw [hstep]
      simp
    · rw [ebr_iteration_seeks]
      simp
    · rcases hfail with hs | hr
      · rw [ebr_iteration_seek_fail src base _ _ hs]
        simp
      · cases hs : src.lseek (((walk_steps src base n (c, st)).1 * 512) % 2 ^ 32)
        · rw [ebr_iteration_seek_fail src base _ _ hs]
          simp
        · rw [ebr_iteration_read_fail src base _ _ hs hr]
          simp
  · intro fuel src device p ps st st1 hp hw
    simp only [extended_pass, hp, if_true, hw]

set_option maxRecDepth 100000 in
/-- C12 on `failingSource`: the walk for slot 0 fails at its seek, the walk
for slot 1 fails at its read, the walk for slot 2 still prints its logical
partition under slot 5 after the four primary records. -/
theorem walk_failure_keeps_output_witness :
    failingSource.lseek ((100 * 512) % 2 ^ 32) = false
    ∧ ebr_iteration failingSource "/dev/sda".toList 100 Run.init =
        (0, { Run.init with seeks := Run.init.seeks ++ [(100 * 512) % 2 ^ 32]
                            errs := Run.init.errs ++ ["lseek"] })
    ∧ (main 4 "/dev/sda".toList failingSource).map
        (fun r => (r.2.out.map (fun e => (e.slot, e.entry.partition_type)),
          r.2.seeks, r.2.errs, r.2.partition_index))
      = some ([(1, 0x05), (2, 0x0F), (3, 0x05), (4, 0x83), (5, 0x83)],
          [51200, 102400, 2097152], ["lseek", "read"], 6) :=
  ⟨by decide,
    walk_failure_keeps_output.1 failingSource "/dev/sda".toList 100 Run.init (by decide),
    by decide⟩

/-! ## C13: a self-linked EBR -/

theorem walk_steps_cycle (src : ByteSource) (base : List Char) (s : Nat)
    (hs : s ≠ 0)
    (hseek : src.lseek ((s * 512) % 2 ^ 32) = true)
    (hread : (src.read ((s * 512) % 2 ^ 32) 32).length = 32)
    (hnext : next_ebr_of (entryAt (src.read ((s * 512) % 2 ^ 32) 32) 16) = s) :
    ∀ (n : Nat) (st : Run), (walk_steps src base n (s, st)).1 = s
  | 0, _ => rfl
  | n + 1, st => by
    have h1 : (ebr_iteration src base s st).1 = s :=
      (ebr_iteration_ok src base s st hseek hread).1.trans hnext
    have hpair : ebr_iteration src base s st = (s, (ebr_iteration src base s st).2) := by
      conv_lhs => rw [← Prod.mk.eta (p := ebr_iteration src base s st), h1]
    rw [walk_steps_succ src base n s st hs, hpair]
    exact walk_steps_cycle src base s hs hseek hread hnext n _

set_option maxRecDepth 100000 in
/-- C13, the code at a self-linked EBR that lies 4 GiB into the device. In
`farCycleImage` the EBR at sector 8388608 (the 32 bytes at byte offset
8388608 * 512) has entry 1 of type 0x05 with `start_sector_abs = 8388608`, yet
a walk started at 8388608 ends after one iteration: the walker seeks to byte
offset 0, reads the zeroed start of the first sector as the EBR, prints
nothing and finds no link, so it returns for any fuel of 1 or more, and so
does `main`. -/
theorem far_cycle_walk_returns :
    (8388608 : Nat) ≠ 0
    ∧ (8388608 : Nat) < 2 ^ 32
    ∧ farCycleImage.lseek (8388608 * 512) = true
    ∧ (farCycleImage.read (8388608 * 512) 32).length = 32
    ∧ (entryAt (farCycleImage.read (8388608 * 512) 32) 16).partition_type = 0x05
    ∧ (entryAt (farCycleImage.read (8388608 * 512) 32) 16).start_sector_abs = 8388608
    ∧ (walk_steps farCycleImage "/dev/sda".toList 1 (8388608, Run.init)).1 = 0
    ∧ (walk_steps farCycleImage "/dev/sda".toList 1 (8388608, Run.init)).2.seeks = [0]
    ∧ (walk_steps farCycleImage "/dev/sda".toList 1 (8388608, Run.init)).2.out = []
    ∧ (parse_extended_partition 1 farCycleImage 8388608 "/dev/sda".toList Run.init).isSome
        = true
    ∧ (main 1 "/dev/sda".toList farCycleImage).map
        (fun r => (r.1, r.2.out.map (fun e => (e.slot, e.entry.partition_type,
          e.entry.start_sector_abs)), r.2.seeks, r.2.reads))
      = some (ExitStatus.EXIT_SUCCESS, [(1, 0x05, 8388608)], [0], [0]) := by
  decide

/-- A self-linked EBR as the walker reads it. When the EBR the walker reads
for a non-zero cursor `s` has entry 1 of type 0x05 with
`start_sector_abs = s`, a walk started at `s` never ends: after any number `n`
of iterations the cursor is still `s`, and the walker returns nothing for any
fuel. The walker reads that EBR at byte offset `(s * 512) mod 2^32`, which is
`s * 512` for `s < 2^23`. -/
theorem cycle_never_terminates :
    (∀ (src : ByteSource) (base : List Char) (s : Nat) (st : Run),
      s ≠ 0 →
      src.lseek ((s * 512) % 2 ^ 32) = true →
      (src.read ((s * 512) % 2 ^ 32) 32).length = 32 →
      (entryAt (src.read ((s * 512) % 2 ^ 32) 32) 16).partition_type = 0x05 →
      (entryAt (src.read ((s * 512) % 2 ^ 32) 32) 16).start_sector_abs = s →
      ∀ n, (walk_steps src base n (s, st)).1 = s
        ∧ (walk_steps src base n (s, st)).1 ≠ 0
        ∧ parse_extended_partition n src s base st = none)
    ∧ (∀ (src : ByteSource) (base : List Char) (s : Nat) (st : Run),
      s ≠ 0 → s < 2 ^ 23 →
      src.lseek (s * 512) = true →
      (src.read (s * 512) 32).length = 32 →
      (entryAt (src.read (s * 512) 32) 16).partition_type = 0x05 →
      (entryAt (src.read (s * 512) 32) 16).start_sector_abs = s →
      ∀ n, (walk_steps src base n (s, st)).1 = s
        ∧ (walk_steps src base n (s, st)).1 ≠ 0
        ∧ parse_extended_partition n src s base st = none) := by
  have main1 : ∀ (src : ByteSource) (base : List Char) (s : Nat) (st : Run),
      s ≠ 0 →
      src.lseek ((s * 512) % 2 ^ 32) = true →
      (src.read ((s * 512) % 2 ^ 32) 32).length = 32 →
      (entryAt (src.read ((s * 512) % 2 ^ 32) 32) 16).partition_type = 0x05 →
      (entryAt (src.read ((s * 512) % 2 ^ 32) 32) 16).start_sector_abs = s →
      ∀ n, (walk_steps src base n (s, st)).1 = s
        ∧ (walk_steps src base n (s, st)).1 ≠ 0
        ∧ parse_extended_partition n src s base st = none := by
    intro src base s st hs hseek hread ht hst n
    have hnext : next_ebr_of (entryAt (src.read ((s * 512) % 2 ^ 32) 32) 16) = s := by
      unfold next_ebr_of
      rw [if_pos (Or.inl ht), hst]
    have hcur := walk_steps_cycle src base s hs hseek hread hnext n st
    refine ⟨hcur, by rw [hcur]; exact hs, ?_⟩
    unfold parse_extended_partition
    simp only [hcur, hs, if_false]
  refine ⟨main1, ?_⟩
  intro src base s st hs hlt hseek hread ht hst n
  have hoff : (s * 512) % 2 ^ 32 = s * 512 := by
    apply Nat.mod_eq_of_lt
    omega
  exact main1 src base s st hs (by rw [hoff]; exact hseek) (by rw [hoff]; exact hread)
    (by rw [hoff]; exact ht) (by rw [hoff]; exact hst) n

set_option maxRecDepth 100000 in
/-- The endless walk on `cyclicImage`, whose EBR at sector 4096 links to
sector 4096. -/
theorem cycle_never_terminates_witness :
    (4096 : Nat) ≠ 0
    ∧ cyclicImage.lseek ((4096 * 512) % 2 ^ 32) = true
    ∧ (walk_steps cyclicImage "/dev/sda".toList 1000 (4096, Run.init)).1 = 4096
    ∧ parse_extended_partition 1000 cyclicImage 4096 "/dev/sda".toList Run.init = none :=
  have h := cycle_never_terminates.1 cyclicImage "/dev/sda".toList 4096 Run.init
    (by decide) (by decide) (by decide) (by decide) (by decide) 1000
  ⟨by decide, by decide, h.1, h.2.2⟩

/-! ## C14: a single primary partition -/

theorem extended_primaries_nil_of_single (buf : List Byte) (p : PartitionEntry)
    (hnz : nonempty_primaries buf = [p])
    (h5 : p.partition_type ≠ 0x05) (hF : p.partition_type ≠ 0x0F) :
    extended_primaries buf = [] := by
  unfold extended_primaries
  rw [List.filter_eq_nil_iff]
  intro q hq hqe
  have hqe1 : q.partition_type = 0x05 ∨ q.partition_type = 0x0F := by simpa using hqe
  have hq0 : q.partition_type ≠ 0 := by
    rcases hqe1 with h | h <;> omega
  have hmem : q ∈ nonempty_primaries buf := by
    unfold nonempty_primaries
    exact List.mem_filter.mpr ⟨hq, by simpa using hq0⟩
  rw [hnz, List.mem_singleton] at hmem
  subst hmem
  rcases hqe1 with h | h
  · exact h5 h
  · exact hF h

set_option maxRecDepth 100000 in
/-- C14's example fails for a long device name: the single partition of
`singleLinuxImage` read as `/dev/disk/by-id/x` is printed under the name
`/dev/disk/by-id`, not under the device name followed by 1. -/
theorem single_partition_name_truncated :
    (main 0 longDevice singleLinuxImage).map
        (fun r => r.2.out.map (fun e => (e.slot, e.line.dev_name, e.line.size)))
      = some [(1, "/dev/disk/by-id".toList, "100.0M")]
    ∧ "/dev/disk/by-id".toList ≠ longDevice ++ "1".toList := by
  decide

/-- C14, amended. For every first sector with a valid signature whose only
non-empty primary entry has a type other than 0x05 and 0x0F, `main` returns
with success for any fuel, prints exactly one record, for that entry under
slot 1, and issues no seek and no read. The record is named by the first 15
characters of the device name followed by "1" (the whole of it when the
device name has at most 14 characters) and flagged bootable exactly when the
boot indicator is 0x80; for type 0x83, start 2048 and 204800 sectors it shows
start 2048, end 206847, 204800 sectors, size "100.0M" and type "Linux". -/
theorem single_primary_reports (fuel : Nat) (device : List Char) (src : ByteSource)
    (p : PartitionEntry)
    (hlen : (src.read 0 512).length = 512)
    (hsig : byteAt (src.read 0 512) 510 = 0x55 ∧ byteAt (src.read 0 512) 511 = 0xAA)
    (hnz : nonempty_primaries (src.read 0 512) = [p])
    (h5 : p.partition_type ≠ 0x05) (hF : p.partition_type ≠ 0x0F) :
    ∃ r, main fuel device src = some (ExitStatus.EXIT_SUCCESS, r)
      ∧ r.out = [primary_record device 1 p]
      ∧ r.seeks = [] ∧ r.reads = [] ∧ r.errs = [] ∧ r.partition_index = 2
      ∧ (primary_record device 1 p).slot = 1
      ∧ (primary_record device 1 p).line.dev_name = (device ++ "1".toList).take 15
      ∧ (device.length ≤ 14 →
          (primary_record device 1 p).line.dev_name = device ++ "1".toList)
      ∧ (primary_record device 1 p).line.is_bootable = decide (p.boot_indicator = 0x80)
      ∧ (p.partition_type = 0x83 → p.start_sector_abs = 2048 → p.total_sectors = 204800 →
          (primary_record device 1 p).line.start = 2048
          ∧ (primary_record device 1 p).line.end_sector = 206847
          ∧ (primary_record device 1 p).line.sectors = 204800
          ∧ (primary_record device 1 p).line.size = "100.0M"
          ∧ (primary_record device 1 p).line.type = "Linux") := by
  obtain ⟨p1, p2, _, p4, p5, p6⟩ := primary_state_spec device (src.read 0 512)
  rw [hnz] at p1 p2
  have hext := extended_primaries_nil_of_single (src.read 0 512) p hnz h5 hF
  have hrun : extended_pass fuel src device (mbrOf (src.read 0 512)).partitions
      (primary_state device (src.read 0 512)) = some (primary_state device (src.read 0 512)) := by
    rw [extended_pass_eq_foldlM]
    have : (mbrOf (src.read 0 512)).partitions.filter
        (fun p => decide (p.partition_type = 0x05 ∨ p.partition_type = 0x0F)) = [] := hext
    rw [this]
    rfl
  refine ⟨primary_state device (src.read 0 512), ?_, ?_, p4, p5, p6, ?_, rfl, rfl, ?_, rfl, ?_⟩
  · rw [main_of_valid fuel device src hlen hsig, hrun]
    rfl
  · rw [p1]
    rfl
  · rw [p2]
    rfl
  · intro hd
    show (device ++ Nat.toDigits 10 1).take 15 = device ++ "1".toList
    have : (device ++ Nat.toDigits 10 1).length ≤ 15 := by
      have : (Nat.toDigits 10 1).length = 1 := by decide
      rw [List.length_append]
      omega
    rw [List.take_of_length_le this]
    rfl
  · intro ht hs hc
    refine ⟨hs, ?_, hc, ?_, ?_⟩
    · show end_sector_of p = 206847
      unfold end_sector_of
      rw [hs, hc]
      decide
    · show size_str p.total_sectors = "100.0M"
      rw [hc]
      decide
    · show get_partition_type p.partition_type = "Linux"
      rw [ht]
      rfl

set_option maxRecDepth 100000 in
/-- C14, amended, on `singleLinuxImage` read as `/dev/sda` with no fuel. -/
theorem single_primary_reports_witness :
    ∃ r, main 0 "/dev/sda".toList singleLinuxImage = some (ExitStatus.EXIT_SUCCESS, r)
      ∧ r.out.map (fun e => e.line)
        = [{ dev_name := "/dev/sda1".toList, is_bootable := true, start := 2048,
             end_sector := 206847, sectors := 204800, size := "100.0M", type := "Linux" }]
      ∧ r.seeks = [] := by
  obtain ⟨r, h1, h2, h3, _⟩ :=
    single_primary_reports 0 "/dev/sda".toList singleLinuxImage
      (entryAt (singleLinuxImage.read 0 512) 446)
      (by decide) (by decide) (by decide) (by decide) (by decide)
  refine ⟨r, h1, ?_, h3⟩
  rw [h2]
  decide

/-! ## C15: the record layout -/

theorem byteOf_val (b : Byte) : byteOf b.val = b := by
  apply Fin.ext
  show b.val % 256 = b.val
  exact Nat.mod_eq_of_lt b.isLt

theorem le32Bytes_le32 (a b c d : Byte) :
    le32Bytes (a.val + 2 ^ 8 * b.val + 2 ^ 16 * c.val + 2 ^ 24 * d.val) = [a, b, c, d] := by
  have ha := a.isLt
  have hb := b.isLt
  have hc := c.isLt
  have hd := d.isLt
  unfold le32Bytes byteOf
  have e0 : (a.val + 2 ^ 8 * b.val + 2 ^ 16 * c.val + 2 ^ 24 * d.val) % 256 = a.val := by omega
  have e1 : (a.val + 2 ^ 8 * b.val + 2 ^ 16 * c.val + 2 ^ 24 * d.val) / 2 ^ 8 % 256
      = b.val := by omega
  have e2 : (a.val + 2 ^ 8 * b.val + 2 ^ 16 * c.val + 2 ^ 24 * d.val) / 2 ^ 16 % 256
      = c.val := by omega
  have e3 : (a.val + 2 ^ 8 * b.val + 2 ^ 16 * c.val + 2 ^ 24 * d.val) / 2 ^ 24 % 256
      = d.val := by omega
  simp only [e0, e1, e2, e3]

theorem byteAt_drop_take (buf : List Byte) (off k : Nat) (hk : k < 16) :
    byteAt ((buf.drop off).take 16) k = byteAt buf (off + k) := by
  unfold byteAt
  rw [List.getD_eq_getElem?_getD, List.getD_eq_getElem?_getD,
    List.getElem?_take_of_lt hk, List.getElem?_drop]

/-- An entry overlaid at offset `off` is read from the 16 bytes found there. -/
theorem entryAt_window (buf : List Byte) (off : Nat) :
    entryAt buf off = entryAt ((buf.drop off).take 16) 0 := by
  have h := fun k (hk : k < 16) => byteAt_drop_take buf off k hk
  unfold entryAt le32At
  simp only [Nat.zero_add, h 0 (by omega), h 1 (by omega), h 2 (by omega), h 3 (by omega),
    h 4 (by omega), h 5 (by omega), h 6 (by omega), h 7 (by omega), h 8 (by omega),
    h 9 (by omega), h 10 (by omega), h 11 (by omega), h 12 (by omega), h 13 (by omega),
    h 14 (by omega), h 15 (by omega), Nat.add_zero, Nat.add_assoc, Nat.reduceAdd]

/-- C15. The entry overlaid on sixteen bytes `b0 .. b15` has `b0` as boot
indicator, `b4` as type, the three bytes after each as CHS fields, the
little-endian value of `b8 .. b11` as `start_sector_abs` and of `b12 .. b15`
as `total_sectors`, and writing the ten fields back gives the sixteen bytes
again. In a first sector the four primary entries are read from the 16-byte
windows at offsets 446, 462, 478, 494 and the signature from bytes 510 and
511; in an EBR read the two entries are the first and the second 16 bytes. -/
theorem entry_layout :
    (∀ b0 b1 b2 b3 b4 b5 b6 b7 b8 b9 b10 b11 b12 b13 b14 b15 : Byte,
      entryAt [b0, b1, b2, b3, b4, b5, b6, b7, b8, b9, b10, b11, b12, b13, b14, b15] 0
        = { boot_indicator := b0.val, start_head := b1.val, start_sector := b2.val,
            start_cylinder := b3.val, partition_type := b4.val, end_head := b5.val,
            end_sector := b6.val, end_cylinder := b7.val,
            start_sector_abs :=
              b8.val + 2 ^ 8 * b9.val + 2 ^ 16 * b10.val + 2 ^ 24 * b11.val,
            total_sectors :=
              b12.val + 2 ^ 8 * b13.val + 2 ^ 16 * b14.val + 2 ^ 24 * b15.val }
      ∧ encodeEntry
          (entryAt [b0, b1, b2, b3, b4, b5, b6, b7, b8, b9, b10, b11, b12, b13, b14, b15] 0)
        = [b0, b1, b2, b3, b4, b5, b6, b7, b8, b9, b10, b11, b12, b13, b14, b15])
    ∧ (∀ buf : List Byte,
      (mbrOf buf).partitions
          = [entryAt ((buf.drop 446).take 16) 0, entryAt ((buf.drop 462).take 16) 0,
             entryAt ((buf.drop 478).take 16) 0, entryAt ((buf.drop 494).take 16) 0]
        ∧ (mbrOf buf).signature = byteAt buf 510 + 2 ^ 8 * byteAt buf 511
        ∧ (mbrOf buf).boot_code = buf.take 446)
    ∧ (∀ buf : List Byte,
      entryAt buf 0 = entryAt (buf.take 16) 0
        ∧ entryAt buf 16 = entryAt ((buf.drop 16).take 16) 0
        ∧ ebr_nonempty buf
          = [entryAt (buf.take 16) 0, entryAt ((buf.drop 16).take 16) 0].filter
              (fun p => decide (p.partition_type ≠ 0x00))) := by
  refine ⟨?_, ?_, ?_⟩
  · intro b0 b1 b2 b3 b4 b5 b6 b7 b8 b9 b10 b11 b12 b13 b14 b15
    have hdec : entryAt [b0, b1, b2, b3, b4, b5, b6, b7, b8, b9, b10, b11, b12, b13, b14,
          b15] 0
        = { boot_indicator := b0.val, start_head := b1.val, start_sector := b2.val,
            start_cylinder := b3.val, partition_type := b4.val, end_head := b5.val,
            end_sector := b6.val, end_cylinder := b7.val,
            start_sector_abs :=
              b8.val + 2 ^ 8 * b9.val + 2 ^ 16 * b10.val + 2 ^ 24 * b11.val,
            total_sectors :=
              b12.val + 2 ^ 8 * b13.val + 2 ^ 16 * b14.val + 2 ^ 24 * b15.val } := rfl
    refine ⟨hdec, ?_⟩
    rw [hdec]
    unfold encodeEntry
    simp only [byteOf_val, le32Bytes_le32]
    rfl
  · intro buf
    refine ⟨?_, rfl, rfl⟩
    show [entryAt buf 446, entryAt buf 462, entryAt buf 478, entryAt buf 494] = _
    rw [entryAt_window buf 446, entryAt_window buf 462, entryAt_window buf 478,
      entryAt_window buf 494]
  · intro buf
    have h0 : entryAt buf 0 = entryAt (buf.take 16) 0 := by
      have := entryAt_window buf 0
      simpa using this
    have h1 := entryAt_window buf 16
    refine ⟨h0, h1, ?_⟩
    unfold ebr_nonempty
    rw [← h0, ← h1]

/-! ## C16: the size unit -/

theorem excessBits_le : ∀ (fuel n : Nat), excessBits fuel n ≤ fuel
  | 0, _ => by simp [excessBits]
  | fuel + 1, n => by
    unfold excessBits
    split
    · omega
    · have := excessBits_le fuel (n / 2)
      omega

theorem roundFloat_small (n : Nat) (h : n < 2 ^ 24) : roundFloat n = n := by
  have e : excessBits 8 n = 0 := by
    unfold excessBits
    rw [if_pos h]
  unfold roundFloat
  simp only [e]
  simp
  omega

theorem roundFloat_large (n : Nat) (h : 2 ^ 24 ≤ n) : 2 ^ 21 ≤ roundFloat n := by
  have he := excessBits_le 8 n
  unfold roundFloat
  generalize excessBits 8 n = e at he
  simp only []
  interval_cases e <;> split_ifs <;> omega

theorem roundFloat_threshold (n : Nat) : 2 ^ 21 ≤ roundFloat n ↔ 2 ^ 21 ≤ n := by
  by_cases h : n < 2 ^ 24
  · rw [roundFloat_small n h]
  · have h1 : 2 ^ 24 ≤ n := by omega
    constructor
    · intro _
      omega
    · intro _
      exact roundFloat_large n h1

theorem size_str_giga (n : Nat) (h : 2 ^ 21 ≤ n) :
    size_str n = fmt1 (roundFloat n) 21 ++ "G" := by
  have h1 : roundFloat n ≥ 2 ^ 21 := (roundFloat_threshold n).mpr h
  unfold size_str
  simp only [h1, if_true]

theorem size_str_mega (n : Nat) (h : n < 2 ^ 21) : size_str n = fmt1 n 11 ++ "M" := by
  have h0 : roundFloat n = n := roundFloat_small n (by omega)
  have h1 : ¬ n ≥ 2 ^ 21 := by omega
  unfold size_str
  simp only [h0]
  rw [if_neg h1]

theorem tenths_nearest (num k : Nat) :
    2 * (2 ^ k * tenths num k) ≤ 2 * (10 * num) + 2 ^ k
      ∧ 2 * (10 * num) ≤ 2 * (2 ^ k * tenths num k) + 2 ^ k := by
  have hdm := Nat.div_add_mod (10 * num) (2 ^ k)
  have hlt : (10 * num) % 2 ^ k < 2 ^ k := Nat.mod_lt _ (Nat.pos_pow_of_pos k (by decide))
  unfold tenths
  generalize (10 * num) / 2 ^ k = q at hdm ⊢
  generalize (10 * num) % 2 ^ k = r at hdm hlt ⊢
  generalize 2 ^ k = m at hdm hlt ⊢
  simp only []
  split_ifs with hc
  · rw [Nat.mul_add, Nat.mul_one]
    rcases hc with hc | hc <;> omega
  · have : 2 * r ≤ m := by
      by_contra hx
      exact hc (Or.inl (by omega))
    omega

/-- C16. The size string ends in `G` exactly when `total_sectors ≥ 2^21`,
which is when `total_sectors * 512 / (1024*1024) / 1024 ≥ 1`, and in `M`
otherwise; below `2^21` sectors the `float` `size_mb` is exactly
`total_sectors / 2048` and the text before `M` is that value to the nearest
tenth; 204800 sectors give "100.0M"; every printed line carries this string
for its entry's sector count. -/
theorem size_unit_selection :
    (∀ n : Nat, ((size_str n).data.getLast? = some 'G' ↔ 2 ^ 21 ≤ n)
      ∧ ((size_str n).data.getLast? = some 'M' ↔ n < 2 ^ 21))
    ∧ (∀ n : Nat, (1 : ℚ) ≤ (n : ℚ) * 512 / (1024 * 1024) / 1024 ↔ 2 ^ 21 ≤ n)
    ∧ (∀ n : Nat, 2 ^ 21 ≤ n → size_str n = fmt1 (roundFloat n) 21 ++ "G")
    ∧ (∀ n : Nat, n < 2 ^ 21 →
        size_str n = fmt1 n 11 ++ "M" ∧ roundFloat n = n
        ∧ 2 * (2048 * tenths n 11) ≤ 2 * (10 * n) + 2048
        ∧ 2 * (10 * n) ≤ 2 * (2048 * tenths n 11) + 2048)
    ∧ size_str 204800 = "100.0M"
    ∧ (∀ (name : List Char) (p : PartitionEntry) (b : Bool) (l : Line),
        print_partition_info name p b = some l → l.size = size_str p.total_sectors) := by
  refine ⟨?_, ?_, size_str_giga, ?_, by decide, ?_⟩
  · intro n
    by_cases h : 2 ^ 21 ≤ n
    · rw [size_str_giga n h, String.data_append]
      have hG : "G".data = ['G'] := rfl
      rw [hG, List.getLast?_concat]
      constructor
      · exact ⟨fun _ => h, fun _ => rfl⟩
      · constructor
        · intro hx
          have : 'G' = 'M' := Option.some.inj hx
          exact absurd this (by decide)
        · intro hx
          omega
    · have h1 : n < 2 ^ 21 := by omega
      rw [size_str_mega n h1, String.data_append]
      have hM : "M".data = ['M'] := rfl
      rw [hM, List.getLast?_concat]
      constructor
      · constructor
        · intro hx
          have : 'M' = 'G' := Option.some.inj hx
          exact absurd this (by decide)
        · intro hx
          exact absurd hx h
      · exact ⟨fun _ => h1, fun _ => rfl⟩
  · intro n
    have e : (n : ℚ) * 512 / (1024 * 1024) / 1024 = (n : ℚ) / 2097152 := by
      field_simp
      ring
    rw [e, le_div_iff₀ (by norm_num), one_mul]
    constructor
    · intro h
      have : (2097152 : ℕ) ≤ n := by exact_mod_cast h
      simpa using this
    · intro h
      have : (2097152 : ℕ) ≤ n := by simpa using h
      exact_mod_cast this
  · intro n h
    have ht := tenths_nearest n 11
    refine ⟨size_str_mega n h, roundFloat_small n (by omega), ?_, ?_⟩
    · simpa using ht.1
    · simpa using ht.2
  · intro name p b l h
    by_cases hp : p.partition_type = 0
    · rw [print_partition_info_of_eq _ _ _ hp] at h
      simp at h
    · rw [print_partition_info_of_ne _ _ _ hp] at h
      simp only [Option.some.injEq] at h
      subst h
      rfl

set_option maxRecDepth 100000 in
/-- C16 at 204800 sectors: mebibytes, value 100.0. -/
theorem size_unit_selection_witness :
    204800 < 2 ^ 21 ∧ size_str 204800 = fmt1 204800 11 ++ "M"
    ∧ fmt1 204800 11 = "100.0" ∧ tenths 204800 11 = 1000 :=
  ⟨by decide, (size_unit_selection.2.2.2.1 204800 (by decide)).1, by decide, by decide⟩

/-! ## C17: a short first read -/

/-- C17. When the first read delivers fewer than 512 bytes `main` exits with
failure after the diagnostic `read`, whatever bytes were delivered: no header,
no partition, no seek, and no signature diagnostic. -/
theorem short_read_fails (fuel : Nat) (device : List Char) (src : ByteSource)
    (hlen : (src.read 0 512).length < 512) :
    main fuel device src =
        some (ExitStatus.EXIT_FAILURE,
          { header := false, out := [], seeks := [], reads := [],
            errs := ["read"], partition_index := 1 })
    ∧ (∀ r, main fuel device src = some r →
        r.1 = ExitStatus.EXIT_FAILURE ∧ r.2.out = [] ∧ r.2.seeks = []
        ∧ "Invalid MBR signature" ∉ r.2.errs) := by
  have h := main_of_short fuel device src (by omega)
  refine ⟨h, ?_⟩
  intro r hr
  rw [h] at hr
  simp only [Option.some.injEq] at hr
  subst hr
  refine ⟨rfl, rfl, rfl, ?_⟩
  decide

set_option maxRecDepth 100000 in
/-- C17 on a source that delivers only 100 bytes. -/
theorem short_read_fails_witness :
    (shortSource.read 0 512).length < 512
    ∧ main 4 "/dev/sda".toList shortSource =
        some (ExitStatus.EXIT_FAILURE,
          { header := false, out := [], seeks := [], reads := [],
            errs := ["read"], partition_index := 1 }) :=
  ⟨by decide, (short_read_fails 4 "/dev/sda".toList shortSource (by decide)).1⟩

/-! ## C18: consecutive numbering -/

theorem consecutive_extend (mk : Nat → PartitionEntry → Reported)
    (hmk : ∀ k p, (mk k p).slot = k) (st st1 : Run) (ps : List PartitionEntry)
    (h : st.consecutive)
    (hout : st1.out = st.out ++ numbered mk st.partition_index ps)
    (hidx : st1.partition_index = st.partition_index + ps.length) :
    st1.consecutive := by
  obtain ⟨h1, h2⟩ := h
  constructor
  · rw [hout, List.map_append, h1, map_slot_numbered mk hmk, List.length_append,
      length_numbered, h2, Nat.add_comm st.out.length 1, List.range'_append_1,
      Nat.add_comm]
  · rw [hidx, hout, List.length_append, length_numbered, h2]
    omega

theorem walk_steps_consecutive (src : ByteSource) (base : List Char) (n c : Nat) (st : Run)
    (h : st.consecutive) : (walk_steps src base n (c, st)).2.consecutive := by
  obtain ⟨ps, _, p2, p3, _⟩ := walk_steps_spec src base n c st
  exact consecutive_extend (walker_record base) (fun _ _ => rfl) st _ ps h p2 p3

theorem primary_pass_consecutive (device : List Char) (ps : List PartitionEntry) (st : Run)
    (h : st.consecutive) : (primary_pass device ps st).consecutive := by
  obtain ⟨p1, p2, _⟩ := primary_pass_spec device ps st
  exact consecutive_extend (primary_record device) (fun _ _ => rfl) st _ _ h p1 p2

/-- C18. The numbering invariant (the records printed so far carry the slots
1, 2, ..., n in output order and the counter is n + 1) holds at the start, is
kept by the primary loop over any number of slots, by each EBR entry, by each
loop iteration whether it succeeds or fails, by a walk cut off after any
number of iterations, and by the second loop of `main`; so it holds for every
finished run and for a run cut off anywhere in a walk. -/
theorem numbering_consecutive :
    Run.init.consecutive
    ∧ (∀ (device : List Char) (ps : List PartitionEntry) (st : Run),
      st.consecutive → (primary_pass device ps st).consecutive)
    ∧ (∀ (base : List Char) (p : PartitionEntry) (st : Run),
      st.consecutive → (ebr_entry base p st).consecutive)
    ∧ (∀ (src : ByteSource) (base : List Char) (c : Nat) (st : Run),
      st.consecutive → (ebr_iteration src base c st).2.consecutive)
    ∧ (∀ (src : ByteSource) (base : List Char) (n c : Nat) (st : Run),
      st.consecutive →
      (walk_steps src base n (c, st)).2.out.map (fun e => e.slot)
          = List.range' 1 (walk_steps src base n (c, st)).2.out.length
        ∧ (walk_steps src base n (c, st)).2.partition_index
          = (walk_steps src base n (c, st)).2.out.length + 1)
    ∧ (∀ (fuel : Nat) (src : ByteSource) (device : List Char) (ps : List PartitionEntry)
        (st st1 : Run),
      st.consecutive → extended_pass fuel src device ps st = some st1 → st1.consecutive)
    ∧ (∀ (device : List Char) (buf : List Byte) (src : ByteSource) (n c : Nat),
      (walk_steps src device n (c, primary_state device buf)).2.out.map (fun e => e.slot)
          = List.range' 1 (walk_steps src device n (c, primary_state device buf)).2.out.length
        ∧ (walk_steps src device n (c, primary_state device buf)).2.partition_index
          = (walk_steps src device n (c, primary_state device buf)).2.out.length + 1)
    ∧ (∀ (fuel : Nat) (device : List Char) (src : ByteSource) (r : ExitStatus × Run),
      main fuel device src = some r →
      r.2.out.map (fun e => e.slot) = List.range' 1 r.2.out.length
        ∧ r.2.partition_index = r.2.out.length + 1) := by
  have hinit : Run.init.consecutive := ⟨rfl, rfl⟩
  have hstart : ({ Run.init with header := true } : Run).consecutive := ⟨rfl, rfl⟩
  have hprim : ∀ (device : List Char) (buf : List Byte),
      (primary_state device buf).consecutive :=
    fun device buf => primary_pass_consecutive device _ _ hstart
  refine ⟨hinit, primary_pass_consecutive, ?_, ?_, walk_steps_consecutive, ?_, ?_, ?_⟩
  · intro base p st h
    obtain ⟨p1, p2, _⟩ := ebr_entry_spec base p st
    exact consecutive_extend (walker_record base) (fun _ _ => rfl) st _ _ h p1 p2
  · intro src base c st h
    obtain ⟨ps, _, p2, p3, _⟩ := ebr_iteration_spec src base c st
    exact consecutive_extend (walker_record base) (fun _ _ => rfl) st _ ps h p2 p3
  · intro fuel src device ps st st1 h hx
    obtain ⟨qs, _, q2, q3, _⟩ := extended_pass_spec fuel src device ps st st1 hx
    exact consecutive_extend (walker_record device) (fun _ _ => rfl) st _ qs h q2 q3
  · intro device buf src n c
    exact walk_steps_consecutive src device n c _ (hprim device buf)
  · intro fuel device src r h
    rcases main_spec fuel device src r h with ⟨_, h0, _, _, _, hi⟩ |
      ⟨_, _, _, hx, _⟩
    · rw [h0, hi]
      exact ⟨rfl, rfl⟩
    · obtain ⟨qs, _, q2, q3, _⟩ := extended_pass_spec fuel src device _ _ _ hx
      exact consecutive_extend (walker_record device) (fun _ _ => rfl) _ _ qs
        (hprim device _) q2 q3

set_option maxRecDepth 100000 in
/-- C18 on the endless walk of `cyclicImage`, cut off after three iterations:
seven records, slots 1 to 7, counter 8. -/
theorem numbering_consecutive_witness :
    (primary_state "/dev/sda".toList (cyclicImage.read 0 512)).consecutive
    ∧ (walk_steps cyclicImage "/dev/sda".toList 3
        (4096, primary_state "/dev/sda".toList (cyclicImage.read 0 512))).2.out.map
        (fun e => e.slot) = [1, 2, 3, 4, 5, 6, 7]
    ∧ (walk_steps cyclicImage "/dev/sda".toList 3
        (4096, primary_state "/dev/sda".toList (cyclicImage.read 0 512))).2.partition_index
      = (walk_steps cyclicImage "/dev/sda".toList 3
        (4096, primary_state "/dev/sda".toList (cyclicImage.read 0 512))).2.out.length + 1 :=
  have hp : (primary_state "/dev/sda".toList (cyclicImage.read 0 512)).consecutive :=
    ⟨by decide, by decide⟩
  ⟨hp, by decide,
    (numbering_consecutive.2.2.2.2.1 cyclicImage "/dev/sda".toList 3 4096 _ hp).2⟩

/-! ## C19: the length of slot names -/

theorem take_eq_self_iff_le (l : List Char) (n : Nat) : l.take n = l ↔ l.length ≤ n := by
  constructor
  · intro h
    have := congrArg List.length h
    rw [List.length_take] at this
    omega
  · exact List.take_of_length_le

/-- C19. A slot name is the first 15 characters of the base name followed by
the decimal index, so it has at most 15 characters; it is the whole
concatenation exactly when the length of the base name plus the number of
digits of the index is at most 15; for a base name of 15 or more characters it
is the first 15 characters of the base name whatever the index. Every record
of a finished run is named this way from the device name and its slot, so
with a device name of 15 or more characters all records carry the same name. -/
theorem slot_name_truncation :
    (∀ (base : List Char) (k : Nat),
      slot_name base k = (base ++ Nat.toDigits 10 k).take 15
        ∧ (slot_name base k).length ≤ 15)
    ∧ (∀ (base : List Char) (k : Nat),
      slot_name base k = base ++ Nat.toDigits 10 k
        ↔ base.length + (Nat.toDigits 10 k).length ≤ 15)
    ∧ (∀ (base : List Char) (j k : Nat), 15 ≤ base.length →
      slot_name base j = base.take 15 ∧ slot_name base j = slot_name base k)
    ∧ (∀ (fuel : Nat) (device : List Char) (src : ByteSource) (r : ExitStatus × Run),
      main fuel device src = some r →
      ∀ e ∈ r.2.out, e.line.dev_name = (device ++ Nat.toDigits 10 e.slot).take 15)
    ∧ (∀ (fuel : Nat) (device : List Char) (src : ByteSource) (r : ExitStatus × Run),
      main fuel device src = some r → 15 ≤ device.length →
      ∀ a ∈ r.2.out, ∀ b ∈ r.2.out, a.line.dev_name = b.line.dev_name) := by
  have hlong : ∀ (base : List Char) (k : Nat), 15 ≤ base.length →
      slot_name base k = base.take 15 := by
    intro base k h
    unfold slot_name
    exact List.take_append_of_le_length h
  have hname : ∀ (fuel : Nat) (device : List Char) (src : ByteSource) (r : ExitStatus × Run),
      main fuel device src = some r →
      ∀ e ∈ r.2.out, e.line.dev_name = slot_name device e.slot := by
    intro fuel device src r h e he
    obtain ⟨_, b, hb⟩ := main_out_mem fuel device src r h e he
    rw [hb]
    rfl
  refine ⟨?_, ?_, ?_, hname, ?_⟩
  · intro base k
    refine ⟨rfl, ?_⟩
    unfold slot_name
    rw [List.length_take]
    omega
  · intro base k
    unfold slot_name
    rw [take_eq_self_iff_le, List.length_append]
  · intro base j k h
    exact ⟨hlong base j h, (hlong base j h).trans (hlong base k h).symm⟩
  · intro fuel device src r h hd a ha b hb
    rw [hname fuel device src r h a ha, hname fuel device src r h b hb,
      hlong device _ hd, hlong device _ hd]

set_option maxRecDepth 100000 in
/-- C19 on `twoPrimariesImage` read under the 17-character name
`/dev/disk/by-id/x`: both records are named `/dev/disk/by-id`. -/
theorem slot_name_truncation_witness :
    15 ≤ longDevice.length
    ∧ slot_name longDevice 1 = "/dev/disk/by-id".toList
    ∧ slot_name longDevice 1 = slot_name longDevice 2
    ∧ slot_name "/dev/sda".toList 12 = "/dev/sda12".toList :=
  ⟨by decide, by decide, (slot_name_truncation.2.2.1 longDevice 1 2 (by decide)).2,
    by decide⟩

/-! ## C20: the end sector wraps at 32 bits -/

theorem le32At_lt (buf : List Byte) (i : Nat) : le32At buf i < 2 ^ 32 := by
  have h0 := byteAt_lt buf i
  have h1 := byteAt_lt buf (i + 1)
  have h2 := byteAt_lt buf (i + 2)
  have h3 := byteAt_lt buf (i + 3)
  unfold le32At
  omega

theorem end_sector_of_int (p : PartitionEntry) :
    (end_sector_of p : Int)
      = ((p.start_sector_abs : Int) + (p.total_sectors : Int) - 1) % 2 ^ 32 := by
  unfold end_sector_of
  omega

/-- C20. The end sector of every printed line is
`(start_sector_abs + total_sectors - 1) mod 2^32`, computed in the integers;
an entry of non-zero type with start 0 and 0 sectors is printed, with end
sector 4294967295; an entry of 32-bit fields with
`start_sector_abs + total_sectors > 2^32` is printed with an end sector below
its start sector; the fields of an overlaid entry are below `2^32`; and the
same holds for every record of a finished run. -/
theorem end_sector_modular :
    (∀ (name : List Char) (p : PartitionEntry) (b : Bool) (l : Line),
      print_partition_info name p b = some l →
      (l.end_sector : Int)
        = ((p.start_sector_abs : Int) + (p.total_sectors : Int) - 1) % 2 ^ 32)
    ∧ (∀ (name : List Char) (p : PartitionEntry) (b : Bool),
      p.partition_type ≠ 0 → p.start_sector_abs = 0 → p.total_sectors = 0 →
      ∃ l, print_partition_info name p b = some l ∧ l.end_sector = 4294967295)
    ∧ (∀ (name : List Char) (p : PartitionEntry) (b : Bool) (l : Line),
      print_partition_info name p b = some l →
      p.start_sector_abs < 2 ^ 32 → p.total_sectors < 2 ^ 32 →
      p.start_sector_abs + p.total_sectors > 2 ^ 32 →
      l.end_sector < l.start)
    ∧ (∀ (buf : List Byte) (off : Nat),
      (entryAt buf off).start_sector_abs < 2 ^ 32 ∧ (entryAt buf off).total_sectors < 2 ^ 32)
    ∧ (∀ (fuel : Nat) (device : List Char) (src : ByteSource) (r : ExitStatus × Run),
      main fuel device src = some r →
      ∀ e ∈ r.2.out,
        (e.line.end_sector : Int)
          = ((e.entry.start_sector_abs : Int) + (e.entry.total_sectors : Int) - 1) % 2 ^ 32) := by
  have hline : ∀ (name : List Char) (p : PartitionEntry) (b : Bool) (l : Line),
      print_partition_info name p b = some l → l = line_of name p b := by
    intro name p b l h
    by_cases hp : p.partition_type = 0
    · rw [print_partition_info_of_eq _ _ _ hp] at h
      simp at h
    · rw [print_partition_info_of_ne _ _ _ hp] at h
      exact (Option.some.inj h).symm
  refine ⟨?_, ?_, ?_, ?_, ?_⟩
  · intro name p b l h
    rw [hline name p b l h]
    exact end_sector_of_int p
  · intro name p b hp hs ht
    refine ⟨line_of name p b, print_partition_info_of_ne _ _ _ hp, ?_⟩
    show end_sector_of p = 4294967295
    unfold end_sector_of
    rw [hs, ht]
    decide
  · intro name p b l h hs ht hsum
    rw [hline name p b l h]
    show end_sector_of p < p.start_sector_abs
    unfold end_sector_of
    omega
  · intro buf off
    exact ⟨le32At_lt buf (off + 8), le32At_lt buf (off + 12)⟩
  · intro fuel device src r h e he
    obtain ⟨_, b, hb⟩ := main_out_mem fuel device src r h e he
    rw [hb]
    exact end_sector_of_int e.entry

set_option maxRecDepth 100000 in
/-- C20 on `zeroLengthImage` (start 0, 0 sectors: end 4294967295) and on
`wrappingImage` (start 4294967295, 2 sectors: end 0). Each item is
(start, end, count). -/
theorem end_sector_modular_witness :
    (main 0 "/dev/sda".toList zeroLengthImage).map
        (fun r => r.2.out.map (fun e => (e.line.start, e.line.end_sector, e.line.sectors)))
      = some [(0, 4294967295, 0)]
    ∧ (main 0 "/dev/sda".toList wrappingImage).map
        (fun r => r.2.out.map (fun e => (e.line.start, e.line.end_sector, e.line.sectors)))
      = some [(4294967295, 0, 2)]
    ∧ ∃ l, print_partition_info "/dev/sda1".toList
          (entryAt (zeroLengthImage.read 0 512) 446) false = some l
        ∧ l.end_sector = 4294967295 :=
  ⟨by decide, by decide,
    end_sector_modular.2.1 "/dev/sda1".toList (entryAt (zeroLengthImage.read 0 512) 446)
      false (by decide) (by decide) (by decide)⟩

end FDisk
